import Mathlib

/-!
Verification of the sharded visit-counter service: a shallow embedding of
the consistent-hash ring (app/core/consistent_hash.py), the value logic of
the Redis connection manager (app/core/redis_manager.py), and the
write-buffer / read-cache counter service (app/services/visit_counter.py),
together with theorems settling the specified properties.

Machine integers are modelled as Nat with explicit reduction modulo 2^32
where the hash computation overflows; Python dicts are modelled as
association lists in insertion order; operations that can raise are
modelled with Except/Option.
-/

set_option maxRecDepth 200000

/-! ## MD5 (hashlib.md5, as used by ConsistentHash._hash)

The ring hashes keys with MD5 and interprets the hex digest as an integer:
`int(hashlib.md5(key.encode('utf-8')).hexdigest(), 16)`. The compression
function below is RFC 1321 MD5 over the UTF-8 bytes of the key, written on
Nat with explicit 32-bit truncation. -/

/-- Truncation to 32 bits. -/
def w32 (n : Nat) : Nat := n % 4294967296

/-- Left rotation of a 32-bit value by s bits (0 < s < 32), written
arithmetically so that the kernel can evaluate it cheaply. -/
def rotl32 (x s : Nat) : Nat := (x % 2 ^ (32 - s)) * 2 ^ s + x / 2 ^ (32 - s)

/-- Round constants of MD5: floor(abs(sin(i+1)) * 2^32) for i < 64 (RFC 1321). -/
def md5K : List Nat := [3614090360, 3905402710, 606105819, 3250441966, 4118548399, 1200080426, 2821735955, 4249261313, 1770035416, 2336552879, 4294925233, 2304563134, 1804603682, 4254626195, 2792965006, 1236535329, 4129170786, 3225465664, 643717713, 3921069994, 3593408605, 38016083, 3634488961, 3889429448, 568446438, 3275163606, 4107603335, 1163531501, 2850285829, 4243563512, 1735328473, 2368359562, 4294588738, 2272392833, 1839030562, 4259657740, 2763975236, 1272893353, 4139469664, 3200236656, 681279174, 3936430074, 3572445317, 76029189, 3654602809, 3873151461, 530742520, 3299628645, 4096336452, 1126891415, 2878612391, 4237533241, 1700485571, 2399980690, 4293915773, 2240044497, 1873313359, 4264355552, 2734768916, 1309151649, 4149444226, 3174756917, 718787259, 3951481745]

/-- Per-round left-rotation amounts of MD5 (RFC 1321). -/
def md5S : List Nat := [7, 12, 17, 22, 7, 12, 17, 22, 7, 12, 17, 22, 7, 12, 17, 22, 5, 9, 14, 20, 5, 9, 14, 20, 5, 9, 14, 20, 5, 9, 14, 20, 4, 11, 16, 23, 4, 11, 16, 23, 4, 11, 16, 23, 4, 11, 16, 23, 6, 10, 15, 21, 6, 10, 15, 21, 6, 10, 15, 21, 6, 10, 15, 21]

/-- UTF-8 encoding of one code point, as byte values. -/
def utf8Bytes (c : Nat) : List Nat :=
  if c < 128 then [c]
  else if c < 2048 then [192 + c / 64, 128 + c % 64]
  else if c < 65536 then [224 + c / 4096, 128 + c / 64 % 64, 128 + c % 64]
  else [240 + c / 262144, 128 + c / 4096 % 64, 128 + c / 64 % 64, 128 + c % 64]

/-- UTF-8 bytes of a string (Python key.encode('utf-8')). -/
def strBytes (s : String) : List Nat :=
  s.data.foldr (fun c acc => utf8Bytes c.toNat ++ acc) []

/-- MD5 padding: append byte 0x80, zero bytes up to 56 mod 64, then the
64-bit little-endian bit length. -/
def md5Pad (msg : List Nat) : List Nat :=
  let L := msg.length
  let z := (119 - L % 64) % 64
  let bitLen := (8 * L) % 2 ^ 64
  msg ++ [128] ++ List.replicate z 0 ++
    (List.range 8).map (fun i => bitLen / 2 ^ (8 * i) % 256)

/-- Split a byte list into 64-byte blocks (fuel-structured so the kernel
can reduce it). -/
def toBlocksAux : Nat → List Nat → List (List Nat)
  | 0, _ => []
  | _, [] => []
  | fuel + 1, l => l.take 64 :: toBlocksAux fuel (l.drop 64)

/-- Split a padded message into its 64-byte blocks. -/
def toBlocks (l : List Nat) : List (List Nat) := toBlocksAux l.length l

/-- Sixteen little-endian 32-bit words of one 64-byte block. -/
def blockWords (b : List Nat) : List Nat :=
  (List.range 16).map (fun j =>
    b.getD (4 * j) 0 + 256 * b.getD (4 * j + 1) 0 +
      65536 * b.getD (4 * j + 2) 0 + 16777216 * b.getD (4 * j + 3) 0)

/-- One step of the MD5 compression loop. The bitwise complement of a
32-bit value b is 4294967295 - b; the disjoint-support unions in rounds
one and two are written as additions. -/
def md5Step (M : List Nat) (st : Nat × Nat × Nat × Nat) (i : Nat) : Nat × Nat × Nat × Nat :=
  let (a, b, c, d) := st
  let f :=
    if i < 16 then Nat.land b c + Nat.land (4294967295 - b) d
    else if i < 32 then Nat.land d b + Nat.land (4294967295 - d) c
    else if i < 48 then Nat.xor b (Nat.xor c d)
    else Nat.xor c (Nat.lor b (4294967295 - d))
  let g :=
    if i < 16 then i
    else if i < 32 then (5 * i + 1) % 16
    else if i < 48 then (3 * i + 5) % 16
    else (7 * i) % 16
  let b' := w32 (b + rotl32 (w32 (a + f + md5K.getD i 0 + M.getD g 0)) (md5S.getD i 0))
  (d, b', b, c)

/-- MD5 compression of one 64-byte block into the running state. -/
def md5Block (st : Nat × Nat × Nat × Nat) (blk : List Nat) : Nat × Nat × Nat × Nat :=
  let M := blockWords blk
  let (a, b, c, d) := (List.range 64).foldl (md5Step M) st
  let (a0, b0, c0, d0) := st
  (w32 (a0 + a), w32 (b0 + b), w32 (c0 + c), w32 (d0 + d))

/-- Little-endian bytes of a 32-bit word. -/
def wordBytes (x : Nat) : List Nat :=
  [x % 256, x / 256 % 256, x / 65536 % 256, x / 16777216 % 256]

/-- MD5 digest of a byte string, interpreted like int(hexdigest, 16): the
sixteen digest bytes read big-endian. -/
def md5Bytes (msg : List Nat) : Nat :=
  let (a, b, c, d) :=
    (toBlocks (md5Pad msg)).foldl md5Block (1732584193, 4023233417, 2562383102, 271733878)
  (wordBytes a ++ wordBytes b ++ wordBytes c ++ wordBytes d).foldl
    (fun acc byte => acc * 256 + byte) 0

/-- ConsistentHash._hash: MD5 of the UTF-8 bytes of the key, hex digest
read as an integer. -/
def md5Int (s : String) : Nat := md5Bytes (strBytes s)

/-! ## Association-list model of Python dicts

A Python dict is modelled as a list of key-value pairs in insertion
order. Assignment d[k] = v replaces the value at the first (unique)
occurrence of k, or appends a fresh entry at the end; deletion removes
the key's entry; lookup finds the entry's value. -/

/-- Python dict assignment d[k] = v: update the entry in place if the key
is present, else append a new entry at the end (insertion order). -/
def dictSet {α β : Type} [DecidableEq α] : List (α × β) → α → β → List (α × β)
  | [], k, v => [(k, v)]
  | p :: t, k, v => if p.1 = k then (k, v) :: t else p :: dictSet t k v

/-- Python dict deletion del d[k]: drop the key's entry (keys are unique
in a dict, so filtering all matches agrees with deleting the entry). -/
def dictDel {α β : Type} [DecidableEq α] (l : List (α × β)) (k : α) : List (α × β) :=
  l.filter (fun p => ¬ p.1 = k)

/-- Python d.get(k, 0) for integer-valued dicts. -/
def dGet (l : List (String × Int)) (k : String) : Int := (l.lookup k).getD 0

theorem lookup_cons {α β : Type} [DecidableEq α] (p : α × β) (t : List (α × β)) (k : α) :
    List.lookup k (p :: t) = if k = p.1 then some p.2 else List.lookup k t := by
  by_cases h : k = p.1
  · simp [List.lookup, h]
  · have hb : (k == p.1) = false := by simpa using h
    simp [List.lookup, hb, h]

theorem lookup_dictSet_self {α β : Type} [DecidableEq α] (l : List (α × β)) (k : α) (v : β) :
    (dictSet l k v).lookup k = some v := by
  induction l with
  | nil => simp [dictSet, lookup_cons]
  | cons p t ih =>
    by_cases h : p.1 = k
    · simp [dictSet, h, lookup_cons]
    · simp [dictSet, if_neg h, lookup_cons, Ne.symm h, ih]

theorem lookup_dictSet_ne {α β : Type} [DecidableEq α] (l : List (α × β)) (k k' : α) (v : β)
    (h : k' ≠ k) : (dictSet l k v).lookup k' = l.lookup k' := by
  induction l with
  | nil => simp [dictSet, lookup_cons, h]
  | cons p t ih =>
    by_cases hp : p.1 = k
    · subst hp
      simp [dictSet, lookup_cons, h]
    · simp only [dictSet, if_neg hp]
      rw [lookup_cons, lookup_cons, ih]

theorem lookup_dictDel_self {α β : Type} [DecidableEq α] (l : List (α × β)) (k : α) :
    (dictDel l k).lookup k = none := by
  induction l with
  | nil => simp [dictDel]
  | cons p t ih =>
    by_cases hp : p.1 = k
    · simpa [dictDel, List.filter_cons, hp] using ih
    · have hf : (decide ¬ p.1 = k) = true := by simpa using hp
      simp only [dictDel, List.filter_cons, hf, if_true] at ih ⊢
      rw [lookup_cons, if_neg (Ne.symm hp)]
      exact ih

theorem lookup_dictDel_ne {α β : Type} [DecidableEq α] (l : List (α × β)) (k k' : α)
    (h : k' ≠ k) : (dictDel l k).lookup k' = l.lookup k' := by
  induction l with
  | nil => simp [dictDel]
  | cons p t ih =>
    by_cases hp : p.1 = k
    · subst hp
      simp only [dictDel, List.filter_cons] at ih ⊢
      rw [show (decide ¬True) = false by simp]
      simp only [Bool.false_eq_true, if_false]
      rw [ih, lookup_cons, if_neg h]
    · have hf : (decide ¬ p.1 = k) = true := by simpa using hp
      simp only [dictDel, List.filter_cons, hf, if_true] at ih ⊢
      rw [lookup_cons, lookup_cons, ih]

theorem lookup_isSome_iff_mem_keys {α β : Type} [DecidableEq α] (l : List (α × β)) (k : α) :
    (l.lookup k).isSome = true ↔ k ∈ l.map Prod.fst := by
  induction l with
  | nil => simp
  | cons p t ih =>
    by_cases hp : k = p.1
    · simp [lookup_cons, hp]
    · simp [lookup_cons, hp, ih, fun h => hp (Eq.symm h)]

/-! ## Python string helpers

String.replace / splitOn / trim from the library do not reduce well in the
kernel, so the Python string operations used by the repository are
modelled directly on character lists with the same semantics
(left-to-right, non-overlapping occurrences). -/

/-- Whether the second list starts with the first. -/
def charsStartWith : List Char → List Char → Bool
  | [], _ => true
  | _ :: _, [] => false
  | p :: ps, c :: cs => p == c && charsStartWith ps cs

/-- Fuel-structured worker for Python str.split(sep). -/
def pySplitAux (sep : List Char) : Nat → List Char → List Char → List (List Char)
  | _, [], acc => [acc.reverse]
  | 0, s, acc => [acc.reverse ++ s]
  | fuel + 1, c :: cs, acc =>
    if sep ≠ [] ∧ charsStartWith sep (c :: cs) then
      acc.reverse :: pySplitAux sep fuel ((c :: cs).drop sep.length) []
    else pySplitAux sep fuel cs (c :: acc)

/-- Python str.split(sep) for a non-empty separator. -/
def pySplit (s sep : String) : List String :=
  (pySplitAux sep.data s.data.length s.data []).map fun l => { data := l }

/-- Fuel-structured worker for Python str.replace(old, new). -/
def pyReplaceAux (old new : List Char) : Nat → List Char → List Char
  | _, [] => []
  | 0, s => s
  | fuel + 1, c :: cs =>
    if old ≠ [] ∧ charsStartWith old (c :: cs) then
      new ++ pyReplaceAux old new fuel ((c :: cs).drop old.length)
    else c :: pyReplaceAux old new fuel cs

/-- Python str.replace(old, new), every non-overlapping occurrence. -/
def pyReplace (s old new : String) : String :=
  { data := pyReplaceAux old.data new.data s.data.length s.data }

/-- Python substring containment: pat in s. -/
def pyContains (s pat : String) : Bool := (pySplit s pat).length != 1

/-- Python str.strip(): drop whitespace from both ends. -/
def pyStrip (l : List Char) : List Char :=
  ((l.dropWhile Char.isWhitespace).reverse.dropWhile Char.isWhitespace).reverse

/-! ## ConsistentHash (app/core/consistent_hash.py) -/

/-- State of the ConsistentHash ring: the hash-to-node dict, the sorted
hash list, and the registered node set (kept as a duplicate-free list). -/
structure ConsistentHash where
  virtual_nodes : Nat
  ring : List (Nat × String)
  sorted_keys : List Nat
  nodes : List String
deriving DecidableEq

/-- Hashes of the virtual-node keys "{node}:{i}" for i < virtual_nodes. -/
def vnodeHashes (node : String) (vn : Nat) : List Nat :=
  (List.range vn).map fun i => md5Int (node ++ ":" ++ toString i)

/-- ConsistentHash.add_node: no-op when present; otherwise register the
node, insert its virtual-node hashes into the ring dict, append them to
sorted_keys and re-sort ascending (the per-iteration appends followed by
one final list.sort are folded into a single append-then-sort; the sort
is written as insertion sort, which produces the same ascending ordering
of the hash values and evaluates in the kernel). -/
def add_node (c : ConsistentHash) (node : String) : ConsistentHash :=
  if node ∈ c.nodes then c
  else
    let hs := vnodeHashes node c.virtual_nodes
    { c with
      nodes := c.nodes ++ [node]
      ring := hs.foldl (fun r h => dictSet r h node) c.ring
      sorted_keys := (c.sorted_keys ++ hs).insertionSort (· ≤ ·) }

/-- One iteration of ConsistentHash.remove_node's loop: when the
virtual-node hash is a ring key, delete the ring entry and remove the
hash from sorted_keys (list.remove: first occurrence). -/
def remove_step (p : List (Nat × String) × List Nat) (h : Nat) :
    List (Nat × String) × List Nat :=
  if (p.1.lookup h).isSome then (dictDel p.1 h, p.2.erase h) else p

/-- ConsistentHash.remove_node: no-op when absent; otherwise deregister
the node and run the removal loop over its virtual-node hashes. -/
def remove_node (c : ConsistentHash) (node : String) : ConsistentHash :=
  if node ∈ c.nodes then
    let rs := (vnodeHashes node c.virtual_nodes).foldl remove_step (c.ring, c.sorted_keys)
    { c with nodes := c.nodes.erase node, ring := rs.1, sorted_keys := rs.2 }
  else c

/-- Python bisect.bisect (= bisect_right) on a sorted list: the insertion
point after any equal entries, i.e. the number of elements ≤ x. -/
def bisect_right (l : List Nat) (x : Nat) : Nat := l.countP fun y => decide (y ≤ x)

/-- ConsistentHash.get_node: raises on an empty ring; otherwise hashes the
key, takes the bisect successor in sorted_keys (wrapping to index 0 when
the hash is past the end) and returns that ring entry's node. The two
impossible library-raised errors (index out of range, missing dict key)
are modelled as distinct error values. -/
def get_node (c : ConsistentHash) (key : String) : Except String String :=
  if c.ring.isEmpty then Except.error "Hash ring is empty"
  else
    let hash_value := md5Int key
    let idx := bisect_right c.sorted_keys hash_value
    let idx2 := if idx ≥ c.sorted_keys.length then 0 else idx
    match c.sorted_keys.get? idx2 with
    | none => Except.error "IndexError"
    | some h =>
      match c.ring.lookup h with
      | some node => Except.ok node
      | none => Except.error "KeyError"

/-- ConsistentHash.__init__: start empty and add each configured node. -/
def mkConsistentHash (nodes : List String) (virtual_nodes : Nat) : ConsistentHash :=
  nodes.foldl add_node
    { virtual_nodes := virtual_nodes, ring := [], sorted_keys := [], nodes := [] }

/-- Modelled from the spec: resolve returns the shard owning the first
ring entry whose hash is at or after (greater than or equal to) the key's
hash, wrapping around to the ring's minimum entry if the hash exceeds all
entries; none when no shards are registered. -/
def specResolve (c : ConsistentHash) (key : String) : Option String :=
  if c.sorted_keys.isEmpty then none
  else
    let hv := md5Int key
    match c.sorted_keys.find? (fun h => decide (hv ≤ h)) with
    | some h => c.ring.lookup h
    | none => c.sorted_keys.head?.bind fun h => c.ring.lookup h

/-- Strict clockwise successor: the first entry strictly after hv, or the
minimum entry of the sorted list when none is strictly greater. -/
def strictSucc (l : List Nat) (hv : Nat) : Option Nat :=
  (l.find? fun h => decide (hv < h)).orElse fun _ => l.head?

instance : DecidableEq (Except String String) := fun x y =>
  match x, y with
  | .ok a, .ok b =>
    if h : a = b then isTrue (by rw [h]) else isFalse (by intro hc; cases hc; exact h rfl)
  | .error a, .error b =>
    if h : a = b then isTrue (by rw [h]) else isFalse (by intro hc; cases hc; exact h rfl)
  | .ok _, .error _ => isFalse (by intro hc; cases hc)
  | .error _, .ok _ => isFalse (by intro hc; cases hc)

/-! ## RedisManager value logic (app/core/redis_manager.py) -/

/-- Decimal value of a digit list. -/
def digitsVal (l : List Char) : Nat := l.foldl (fun a c => a * 10 + (c.toNat - 48)) 0

/-- Python int(payload) on the byte payloads Redis returns: strip
surrounding whitespace, then an optional sign followed by at least one
decimal digit; anything else raises ValueError, modelled as none.
(CPython also accepts underscore digit grouping; such payloads do not
occur for counters and are modelled as unparsable.) -/
def parseInt? (s : String) : Option Int :=
  match pyStrip s.data with
  | [] => none
  | c :: r =>
    let sgn : Int := if c = '-' then -1 else 1
    let ds := if c = '-' ∨ c = '+' then r else c :: r
    if ds ≠ [] ∧ ds.all Char.isDigit then some (sgn * (digitsVal ds : Int)) else none

/-- Tag of the shard that served a read (RedisManager.get): the text after
"redis://" up to the first "/", then the text after the first ":" is the
port; a missing ":" raises IndexError which is caught and yields the
plain tag "redis", as does a URL without the "redis://" scheme. -/
def servedVia (node : String) : String :=
  if pyContains node "redis://" then
    let host_port := (pySplit (pyReplace node "redis://" "") "/").headI
    match (pySplit host_port ":").get? 1 with
    | some port => "redis_" ++ port
    | none => "redis"
  else "redis"

/-- Value-and-tag logic of RedisManager.get: the raw GET reply (none when
the key is absent in the store, otherwise the stored payload) becomes an
integer; absence and an unparsable payload are both reported as 0, never
as an error. -/
def redis_manager_get (raw : Option String) (node : String) : Int × String :=
  let served_via := servedVia node
  match raw with
  | none => (0, served_via)
  | some s =>
    match parseInt? s with
    | some n => (n, served_via)
    | none => (0, served_via)

/-! ## VisitCounterService (app/services/visit_counter.py)

The service state is the write buffer, the read cache and the durable
backing store; each key lives on exactly one shard, so the store is one
key space. Backing-store increments that raise are modelled by a
per-cycle failure oracle; the wall clock is an explicit parameter. -/

/-- Process state of VisitCounterService plus the durable Redis counters. -/
structure VCState where
  write_buffer : List (String × Int)
  cache : List (String × (Int × Nat))
  store : List (String × Int)
deriving DecidableEq

/-- VisitCounterService._cache_ttl (seconds). -/
def cache_ttl : Nat := 5

/-- Storage key of a page: f"visit_counter:{page_id}". -/
def storageKey (page_id : String) : String := "visit_counter:" ++ page_id

/-- RedisManager.increment: INCRBY key amount (a missing key counts as 0). -/
def redis_increment (store : List (String × Int)) (k : String) (amount : Int) :
    List (String × Int) :=
  dictSet store k (dGet store k + amount)

/-- VisitCounterService._invalidate_cache. -/
def invalidate_cache (cache : List (String × (Int × Nat))) (k : String) :
    List (String × (Int × Nat)) :=
  dictDel cache k

/-- VisitCounterService._update_cache at time now: expiry is now + ttl. -/
def update_cache (now : Nat) (cache : List (String × (Int × Nat))) (k : String) (v : Int) :
    List (String × (Int × Nat)) :=
  dictSet cache k (v, now + cache_ttl)

/-- The buffer update under the lock: create the entry at 0 if absent,
then add delta. -/
def buffer_add (l : List (String × Int)) (k : String) (delta : Int) : List (String × Int) :=
  dictSet l k (dGet l k + delta)

/-- VisitCounterService.increment_visit_redis: add 1 to the key's buffer
entry under the lock, then invalidate the key's cache entry. -/
def increment_visit_redis (s : VCState) (page_id : String) : VCState :=
  let key := storageKey page_id
  { s with
    write_buffer := buffer_add s.write_buffer key 1
    cache := invalidate_cache s.cache key }

/-- Cache-miss tail of get_visit_count_redis: read the durable value via
the RedisManager (tagged with the serving node), flush a positive pending
amount with one INCRBY and add it to the result, then repopulate the
cache with the total. -/
def read_miss (nodeOf : String → String) (now : Nat) (key : String) (pending_count : Int)
    (buf : List (String × Int)) (s : VCState) : (Int × String) × VCState :=
  let count := dGet s.store key
  let served_via := servedVia (nodeOf key)
  let sc :=
    if pending_count > 0 then (redis_increment s.store key pending_count, count + pending_count)
    else (s.store, count)
  ((sc.2, served_via),
    { write_buffer := buf, cache := update_cache now s.cache key sc.2, store := sc.1 })

/-- VisitCounterService.get_visit_count_redis at time now: under the lock
read the pending amount and delete the buffer entry when it is positive;
on a fresh cache entry return cached value + pending tagged "in_memory";
otherwise fall through to the store. nodeOf is the node URL the
RedisManager resolves a key to via the hash ring. -/
def get_visit_count_redis (nodeOf : String → String) (now : Nat) (s : VCState)
    (page_id : String) : (Int × String) × VCState :=
  let key := storageKey page_id
  let pending_count := dGet s.write_buffer key
  let buf := if pending_count > 0 then dictDel s.write_buffer key else s.write_buffer
  match s.cache.lookup key with
  | some ve =>
    if now < ve.2 then ((ve.1 + pending_count, "in_memory"), { s with write_buffer := buf })
    else read_miss nodeOf now key pending_count buf s
  | none => read_miss nodeOf now key pending_count buf s

/-- Body of the flush loop for one drained entry: a positive amount is
applied with one INCRBY and the key's cache entry invalidated on success;
when the INCRBY raises (fails k = true) the amount is re-added to the
live buffer under the lock; a non-positive amount is skipped entirely. -/
def apply_flush_entry (fails : String → Bool) (s : VCState) (kc : String × Int) : VCState :=
  if kc.2 > 0 then
    if fails kc.1 then { s with write_buffer := buffer_add s.write_buffer kc.1 kc.2 }
    else
      { s with
        store := redis_increment s.store kc.1 kc.2
        cache := invalidate_cache s.cache kc.1 }
  else s

/-- The loop of _flush_buffer_to_redis applied to a drained snapshot,
entry by entry in insertion order, outside the lock. -/
def apply_snapshot (fails : String → Bool) (snap : List (String × Int)) (s : VCState) :
    VCState :=
  snap.foldl (apply_flush_entry fails) s

/-- VisitCounterService._flush_buffer_to_redis: under the lock snapshot
the buffer and clear it (returning early when it is empty), then apply
the snapshot outside the lock. -/
def flush_buffer_to_redis (fails : String → Bool) (s : VCState) : VCState :=
  if s.write_buffer.isEmpty then s
  else apply_snapshot fails s.write_buffer { s with write_buffer := [] }

/-- Durable count plus the key's unflushed buffer delta (the quantity the
design intends to equal the true logical count at all times). -/
def durable_plus_pending (s : VCState) (k : String) : Int :=
  dGet s.store k + dGet s.write_buffer k

/-! ## Pointwise lemmas about the state operations -/

theorem dGet_dictSet_self (l : List (String × Int)) (k : String) (v : Int) :
    dGet (dictSet l k v) k = v := by
  simp [dGet, lookup_dictSet_self]

theorem dGet_dictSet_ne (l : List (String × Int)) (k k' : String) (v : Int) (h : k' ≠ k) :
    dGet (dictSet l k v) k' = dGet l k' := by
  simp [dGet, lookup_dictSet_ne l k k' v h]

theorem dGet_dictDel_self (l : List (String × Int)) (k : String) :
    dGet (dictDel l k) k = 0 := by
  simp [dGet, lookup_dictDel_self]

theorem dGet_dictDel_ne (l : List (String × Int)) (k k' : String) (h : k' ≠ k) :
    dGet (dictDel l k) k' = dGet l k' := by
  simp [dGet, lookup_dictDel_ne l k k' h]

theorem dGet_buffer_add_self (l : List (String × Int)) (k : String) (d : Int) :
    dGet (buffer_add l k d) k = dGet l k + d := by
  simp [buffer_add, dGet_dictSet_self]

theorem dGet_buffer_add_ne (l : List (String × Int)) (k k' : String) (d : Int) (h : k' ≠ k) :
    dGet (buffer_add l k d) k' = dGet l k' := by
  simp [buffer_add, dGet_dictSet_ne _ _ _ _ h]

theorem dGet_redis_increment_self (st : List (String × Int)) (k : String) (a : Int) :
    dGet (redis_increment st k a) k = dGet st k + a := by
  simp [redis_increment, dGet_dictSet_self]

theorem dGet_redis_increment_ne (st : List (String × Int)) (k k' : String) (a : Int)
    (h : k' ≠ k) : dGet (redis_increment st k a) k' = dGet st k' := by
  simp [redis_increment, dGet_dictSet_ne _ _ _ _ h]

/-- An entry for a different key leaves the buffer, store and cache
unchanged at K. -/
theorem apply_flush_entry_other (fails : String → Bool) (s : VCState) (kc : String × Int)
    (K : String) (h : kc.1 ≠ K) :
    dGet (apply_flush_entry fails s kc).write_buffer K = dGet s.write_buffer K ∧
    dGet (apply_flush_entry fails s kc).store K = dGet s.store K ∧
    (apply_flush_entry fails s kc).cache.lookup K = s.cache.lookup K := by
  unfold apply_flush_entry
  by_cases h2 : kc.2 > 0
  · by_cases hf : fails kc.1 = true
    · simp [h2, hf, dGet_buffer_add_ne _ _ _ _ (Ne.symm h)]
    · simp [h2, hf, dGet_redis_increment_ne _ _ _ _ (Ne.symm h),
        invalidate_cache, lookup_dictDel_ne _ _ _ (Ne.symm h)]
  · simp [h2]

/-- A snapshot with no entry for K leaves the buffer, store and cache
unchanged at K. -/
theorem apply_snapshot_other (fails : String → Bool) (snap : List (String × Int)) (K : String)
    (h : ∀ e ∈ snap, e.1 ≠ K) (s : VCState) :
    dGet (apply_snapshot fails snap s).write_buffer K = dGet s.write_buffer K ∧
    dGet (apply_snapshot fails snap s).store K = dGet s.store K ∧
    (apply_snapshot fails snap s).cache.lookup K = s.cache.lookup K := by
  induction snap generalizing s with
  | nil => simp [apply_snapshot]
  | cons e t ih =>
    have he := apply_flush_entry_other fails s e K (h e (by simp))
    have ht := ih (fun x hx => h x (by simp [hx])) (apply_flush_entry fails s e)
    refine ⟨?_, ?_, ?_⟩
    · rw [show apply_snapshot fails (e :: t) s =
        apply_snapshot fails t (apply_flush_entry fails s e) from rfl]
      rw [ht.1, he.1]
    · rw [show apply_snapshot fails (e :: t) s =
        apply_snapshot fails t (apply_flush_entry fails s e) from rfl]
      rw [ht.2.1, he.2.1]
    · rw [show apply_snapshot fails (e :: t) s =
        apply_snapshot fails t (apply_flush_entry fails s e) from rfl]
      rw [ht.2.2, he.2.2]

theorem apply_snapshot_append (fails : String → Bool) (l1 l2 : List (String × Int))
    (s : VCState) :
    apply_snapshot fails (l1 ++ l2) s = apply_snapshot fails l2 (apply_snapshot fails l1 s) :=
  List.foldl_append _ _ _ _

/-- A successful lookup splits the association list around its first
occurrence of the key. -/
theorem lookup_split {β : Type} {l : List (String × β)} {K : String} {c : β}
    (h : l.lookup K = some c) :
    ∃ l1 l2, l = l1 ++ (K, c) :: l2 ∧ ∀ e ∈ l1, e.1 ≠ K := by
  induction l with
  | nil => simp [List.lookup] at h
  | cons p t ih =>
    rw [lookup_cons] at h
    by_cases hp : K = p.1
    · refine ⟨[], t, ?_, by simp⟩
      rw [if_pos hp] at h
      cases p with
      | mk a b =>
        simp at hp h
        simp [hp, h]
    · rw [if_neg hp] at h
      obtain ⟨l1, l2, rfl, hl1⟩ := ih h
      exact ⟨p :: l1, l2, rfl, by
        intro e he
        rcases List.mem_cons.mp he with rfl | he2
        · exact fun hc => hp (Eq.symm hc)
        · exact hl1 e he2⟩

/-! ## Claims -/

/-- C9: the backing-store read never raises on the value's content: the
result is always tagged with the shard's servedVia tag, and both a
missing key (raw reply none) and a stored payload that does not parse as
an integer are reported as value 0 rather than as an error. -/
theorem C9_redis_get_total (raw : Option String) (node : String) :
    (redis_manager_get raw node).2 = servedVia node ∧
    (raw = none → redis_manager_get raw node = (0, servedVia node)) ∧
    (∀ p, raw = some p → parseInt? p = none →
      redis_manager_get raw node = (0, servedVia node)) := by
  refine ⟨?_, ?_, ?_⟩
  · cases raw with
    | none => rfl
    | some p =>
      cases hp : parseInt? p <;> simp [redis_manager_get, hp]
  · intro h
    subst h
    rfl
  · intro p h hp
    subst h
    simp [redis_manager_get, hp]

theorem C9_witness :
    redis_manager_get none "redis://localhost:7070/0" = (0, "redis_7070") ∧
    redis_manager_get (some "garbage") "redis://localhost:7070/0" = (0, "redis_7070") := by
  constructor
  · rw [(C9_redis_get_total none "redis://localhost:7070/0").2.1 rfl]
    decide
  · rw [(C9_redis_get_total (some "garbage") "redis://localhost:7070/0").2.2 "garbage" rfl
      (by decide)]
    decide

/-- C7: a cache fill at time t0 stamps expiry t0 + ttl (ttl = 5); a read
strictly before that instant is served from the cache with source
in_memory and changes nothing, while a read at or after it is a miss that
fetches the durable value and carries the store-derived shard tag. -/
theorem C7_cache_ttl_boundary (nodeOf : String → String) (s : VCState) (page_id : String)
    (t0 t1 : Nat) (v : Int)
    (hbuf : dGet s.write_buffer (storageKey page_id) = 0) :
    (update_cache t0 s.cache (storageKey page_id) v).lookup (storageKey page_id) =
      some (v, t0 + cache_ttl) ∧
    (t1 < t0 + cache_ttl →
      get_visit_count_redis nodeOf t1
          { s with cache := update_cache t0 s.cache (storageKey page_id) v } page_id =
        ((v, "in_memory"),
          { s with cache := update_cache t0 s.cache (storageKey page_id) v })) ∧
    (t0 + cache_ttl ≤ t1 →
      (get_visit_count_redis nodeOf t1
          { s with cache := update_cache t0 s.cache (storageKey page_id) v } page_id).1 =
        (dGet s.store (storageKey page_id), servedVia (nodeOf (storageKey page_id)))) := by
  have hlk : (update_cache t0 s.cache (storageKey page_id) v).lookup (storageKey page_id) =
      some (v, t0 + cache_ttl) := lookup_dictSet_self _ _ _
  refine ⟨hlk, ?_, ?_⟩
  · intro ht
    simp [get_visit_count_redis, hlk, hbuf, ht]
  · intro ht
    simp [get_visit_count_redis, hlk, hbuf, read_miss,
      show ¬ t1 < t0 + cache_ttl by omega]

theorem C7_witness :
    get_visit_count_redis (fun _ => "redis://h:7070/0") 3
        { write_buffer := [], cache := update_cache 0 [] (storageKey "p") 7, store := [] } "p" =
      ((7, "in_memory"),
        { write_buffer := [], cache := update_cache 0 [] (storageKey "p") 7, store := [] }) ∧
    (get_visit_count_redis (fun _ => "redis://h:7070/0") 5
        { write_buffer := [], cache := update_cache 0 [] (storageKey "p") 7, store := [] } "p").1 =
      (0, "redis_7070") := by
  constructor
  · exact (C7_cache_ttl_boundary (fun _ => "redis://h:7070/0")
      { write_buffer := [], cache := [], store := [] } "p" 0 3 7 (by decide)).2.1 (by decide)
  · rw [(C7_cache_ttl_boundary (fun _ => "redis://h:7070/0")
      { write_buffer := [], cache := [], store := [] } "p" 0 5 7 (by decide)).2.2 (by decide)]
    decide

/-- C2: an increment followed immediately by a read, with no flush in
between, returns the durable stored value plus every buffered increment
with the new increment counted exactly once; the read persists that
total and leaves no pending amount behind. -/
theorem C2_write_then_read (nodeOf : String → String) (now : Nat) (s : VCState)
    (page_id : String) (hb : 0 ≤ dGet s.write_buffer (storageKey page_id)) :
    (get_visit_count_redis nodeOf now (increment_visit_redis s page_id) page_id).1.1 =
      dGet s.store (storageKey page_id) + dGet s.write_buffer (storageKey page_id) + 1 ∧
    dGet (get_visit_count_redis nodeOf now (increment_visit_redis s page_id) page_id).2.store
        (storageKey page_id) =
      dGet s.store (storageKey page_id) + dGet s.write_buffer (storageKey page_id) + 1 ∧
    dGet (get_visit_count_redis nodeOf now
        (increment_visit_redis s page_id) page_id).2.write_buffer (storageKey page_id) = 0 := by
  have hcache : (increment_visit_redis s page_id).cache.lookup (storageKey page_id) = none :=
    lookup_dictDel_self _ _
  have hbuf : dGet (increment_visit_redis s page_id).write_buffer (storageKey page_id) =
      dGet s.write_buffer (storageKey page_id) + 1 := dGet_buffer_add_self _ _ _
  have hstore : (increment_visit_redis s page_id).store = s.store := rfl
  have hpos : 0 < dGet s.write_buffer (storageKey page_id) + 1 := by omega
  refine ⟨?_, ?_, ?_⟩
  · simp [get_visit_count_redis, hcache, read_miss, hbuf, hstore, hpos]
    omega
  · simp [get_visit_count_redis, hcache, read_miss, hbuf, hstore, hpos,
      dGet_redis_increment_self]
    omega
  · simp [get_visit_count_redis, hcache, read_miss, hbuf, hpos, dGet_dictDel_self]

theorem C2_witness :
    (get_visit_count_redis (fun _ => "redis://h:7070/0") 0
        (increment_visit_redis
          { write_buffer := [("visit_counter:p", 2)], cache := [],
            store := [("visit_counter:p", 4)] } "p") "p").1.1 = 7 := by
  rw [(C2_write_then_read (fun _ => "redis://h:7070/0") 0
    { write_buffer := [("visit_counter:p", 2)], cache := [], store := [("visit_counter:p", 4)] }
    "p" (by decide)).1]
  decide

/-! ## Further flush-loop helpers -/

theorem apply_flush_entry_other_buflookup (fails : String → Bool) (s : VCState)
    (kc : String × Int) (K : String) (h : kc.1 ≠ K) :
    (apply_flush_entry fails s kc).write_buffer.lookup K = s.write_buffer.lookup K := by
  unfold apply_flush_entry
  by_cases h2 : kc.2 > 0
  · by_cases hf : fails kc.1 = true
    · simp [h2, hf, buffer_add, lookup_dictSet_ne _ _ _ _ (Ne.symm h)]
    · simp [h2, hf]
  · simp [h2]

theorem apply_snapshot_other_buflookup (fails : String → Bool) (snap : List (String × Int))
    (K : String) (h : ∀ e ∈ snap, e.1 ≠ K) (s : VCState) :
    (apply_snapshot fails snap s).write_buffer.lookup K = s.write_buffer.lookup K := by
  induction snap generalizing s with
  | nil => rfl
  | cons e t ih =>
    rw [show apply_snapshot fails (e :: t) s =
      apply_snapshot fails t (apply_flush_entry fails s e) from rfl]
    rw [ih (fun x hx => h x (by simp [hx])),
      apply_flush_entry_other_buflookup fails s e K (h e (by simp))]

/-- With no failures the flush loop never touches the live buffer. -/
theorem apply_snapshot_nofail_buffer (snap : List (String × Int)) (s : VCState) :
    (apply_snapshot (fun _ => false) snap s).write_buffer = s.write_buffer := by
  induction snap generalizing s with
  | nil => rfl
  | cons e t ih =>
    rw [show apply_snapshot (fun _ => false) (e :: t) s =
      apply_snapshot (fun _ => false) t (apply_flush_entry (fun _ => false) s e) from rfl, ih]
    unfold apply_flush_entry
    by_cases h2 : e.2 > 0 <;> simp [h2]

theorem lookup_eq_none_of_absent {α β : Type} [DecidableEq α] {l : List (α × β)} {k : α}
    (h : k ∉ l.map Prod.fst) : l.lookup k = none := by
  cases hl : l.lookup k with
  | none => rfl
  | some v =>
    exact absurd ((lookup_isSome_iff_mem_keys l k).mp (by simp [hl])) h

theorem lookup_append_left_absent {α β : Type} [DecidableEq α] (l l2 : List (α × β)) (k : α)
    (h : k ∉ l.map Prod.fst) : (l ++ l2).lookup k = l2.lookup k := by
  induction l with
  | nil => rfl
  | cons p t ih =>
    simp only [List.map_cons, List.mem_cons] at h
    push_neg at h
    rw [List.cons_append, lookup_cons, if_neg h.1]
    exact ih h.2

theorem dictSet_absent {α β : Type} [DecidableEq α] (l : List (α × β)) (k : α) (v : β)
    (h : k ∉ l.map Prod.fst) : dictSet l k v = l ++ [(k, v)] := by
  induction l with
  | nil => rfl
  | cons p t ih =>
    simp only [List.map_cons, List.mem_cons] at h
    push_neg at h
    rw [show dictSet (p :: t) k v = if p.1 = k then (k, v) :: t else p :: dictSet t k v from rfl,
      if_neg (Ne.symm h.1), ih h.2, List.cons_append]

theorem dictSet_append_entry {α β : Type} [DecidableEq α] (l : List (α × β)) (k : α) (v w : β)
    (h : k ∉ l.map Prod.fst) : dictSet (l ++ [(k, v)]) k w = l ++ [(k, w)] := by
  induction l with
  | nil => simp [dictSet]
  | cons p t ih =>
    simp only [List.map_cons, List.mem_cons] at h
    push_neg at h
    rw [List.cons_append,
      show dictSet (p :: (t ++ [(k, v)])) k w =
        if p.1 = k then (k, w) :: (t ++ [(k, v)]) else p :: dictSet (t ++ [(k, v)]) k w from rfl,
      if_neg (Ne.symm h.1), ih h.2, List.cons_append]

/-- C10: a drained buffer entry whose pending amount is not positive is
discarded by the flush cycle: the snapshot-and-clear removes it from the
live buffer, but it is never applied to the store, never invalidates the
key's cache entry, and is never re-buffered. -/
theorem C10_nonpositive_entry_dropped (fails : String → Bool) (s : VCState) (K : String)
    (c : Int) (hnd : (s.write_buffer.map Prod.fst).Nodup)
    (hK : s.write_buffer.lookup K = some c) (hc : c ≤ 0) :
    (flush_buffer_to_redis fails s).write_buffer.lookup K = none ∧
    dGet (flush_buffer_to_redis fails s).store K = dGet s.store K ∧
    (flush_buffer_to_redis fails s).cache.lookup K = s.cache.lookup K := by
  obtain ⟨l1, l2, hsplit, hl1⟩ := lookup_split hK
  have hne : ¬ s.write_buffer.isEmpty := by
    rw [hsplit]
    cases l1 <;> simp
  have hl2 : ∀ e ∈ l2, e.1 ≠ K := by
    intro e he hc2
    rw [hsplit] at hnd
    simp only [List.map_append, List.map_cons, List.nodup_append] at hnd
    have hKl2 : K ∈ (l2.map Prod.fst) := List.mem_map.mpr ⟨e, he, hc2⟩
    have := hnd.2.1
    rw [List.nodup_cons] at this
    exact this.1 hKl2
  unfold flush_buffer_to_redis
  rw [if_neg hne]
  rw [show s.write_buffer = l1 ++ (K, c) :: l2 from hsplit]
  rw [show (l1 ++ (K, c) :: l2 : List (String × Int)) = (l1 ++ [(K, c)]) ++ l2 by simp]
  rw [apply_snapshot_append, apply_snapshot_append]
  set s0 : VCState := { s with write_buffer := [] } with hs0
  have hmid : apply_snapshot fails [(K, c)] (apply_snapshot fails l1 s0) =
      apply_snapshot fails l1 s0 := by
    rw [show apply_snapshot fails [(K, c)] (apply_snapshot fails l1 s0) =
      apply_flush_entry fails (apply_snapshot fails l1 s0) (K, c) from rfl]
    unfold apply_flush_entry
    rw [if_neg (by simpa using hc)]
  rw [hmid]
  have h1buf := apply_snapshot_other_buflookup fails l1 K hl1 s0
  have h1 := apply_snapshot_other fails l1 K hl1 s0
  have h2buf := apply_snapshot_other_buflookup fails l2 K hl2 (apply_snapshot fails l1 s0)
  have h2 := apply_snapshot_other fails l2 K hl2 (apply_snapshot fails l1 s0)
  refine ⟨?_, ?_, ?_⟩
  · rw [h2buf, h1buf]
    rfl
  · rw [h2.2.1, h1.2.1]
  · rw [h2.2.2, h1.2.2]

theorem C10_witness :
    (flush_buffer_to_redis (fun _ => true)
        { write_buffer := [("a", 2), ("k0", -1)], cache := [("k0", (9, 4))],
          store := [("k0", 5)] }).write_buffer.lookup "k0" = none ∧
    dGet (flush_buffer_to_redis (fun _ => true)
        { write_buffer := [("a", 2), ("k0", -1)], cache := [("k0", (9, 4))],
          store := [("k0", 5)] }).store "k0" =
      dGet ({ write_buffer := [("a", 2), ("k0", -1)], cache := [("k0", (9, 4))], store := [("k0", 5)] } : VCState).store "k0" ∧
    (flush_buffer_to_redis (fun _ => true)
        { write_buffer := [("a", 2), ("k0", -1)], cache := [("k0", (9, 4))],
          store := [("k0", 5)] }).cache.lookup "k0" =
      ({ write_buffer := [("a", 2), ("k0", -1)], cache := [("k0", (9, 4))], store := [("k0", 5)] } : VCState).cache.lookup "k0" :=
  C10_nonpositive_entry_dropped (fun _ => true)
    { write_buffer := [("a", 2), ("k0", -1)], cache := [("k0", (9, 4))], store := [("k0", 5)] }
    "k0" (-1) (by decide) (by decide) (by decide)

/-- Shape of the state after n consecutive increments of one page when
its storage key starts absent from the buffer: a single appended buffer
entry carrying n, and an untouched store. -/
theorem iterate_increment_shape (s : VCState) (page_id : String)
    (habs : storageKey page_id ∉ s.write_buffer.map Prod.fst) :
    ∀ n, 1 ≤ n →
      ((fun st => increment_visit_redis st page_id)^[n] s).write_buffer =
        s.write_buffer ++ [(storageKey page_id, (n : Int))] ∧
      ((fun st => increment_visit_redis st page_id)^[n] s).store = s.store := by
  intro n hn
  induction n with
  | zero => omega
  | succ m ih =>
    by_cases hm : 1 ≤ m
    · obtain ⟨hbuf, hstore⟩ := ih hm
      rw [Function.iterate_succ_apply']
      constructor
      · show buffer_add ((fun st => increment_visit_redis st page_id)^[m] s).write_buffer
            (storageKey page_id) 1 = _
        rw [hbuf]
        unfold buffer_add
        rw [show dGet (s.write_buffer ++ [(storageKey page_id, (m : Int))])
              (storageKey page_id) = (m : Int) by
            simp [dGet, lookup_append_left_absent _ _ _ habs, lookup_cons]]
        rw [dictSet_append_entry _ _ _ _ habs]
        norm_num
      · show ((fun st => increment_visit_redis st page_id)^[m] s).store = s.store
        exact hstore
    · have hm0 : m = 0 := by omega
      subst hm0
      rw [Function.iterate_one]
      constructor
      · show buffer_add s.write_buffer (storageKey page_id) 1 = _
        unfold buffer_add
        rw [show dGet s.write_buffer (storageKey page_id) = 0 by
            simp [dGet, lookup_eq_none_of_absent habs]]
        rw [dictSet_absent _ _ _ habs]
        norm_num
      · rfl

/-- C6: n consecutive increments of one page with no intervening flush
leave exactly one buffer entry for the storage key, holding pending
amount n; a then-successful flush cycle snapshots and clears the buffer,
applies the amount with one INCRBY, invalidates the key's cache entry,
and leaves nothing pending. -/
theorem C6_buffer_conservation (s : VCState) (page_id : String) (n : Nat) (hn : 1 ≤ n)
    (habs : storageKey page_id ∉ s.write_buffer.map Prod.fst) :
    ((fun st => increment_visit_redis st page_id)^[n] s).write_buffer.countP
        (fun e => decide (e.1 = storageKey page_id)) = 1 ∧
    ((fun st => increment_visit_redis st page_id)^[n] s).write_buffer.lookup
        (storageKey page_id) = some (n : Int) ∧
    (flush_buffer_to_redis (fun _ => false)
        ((fun st => increment_visit_redis st page_id)^[n] s)).write_buffer = [] ∧
    dGet (flush_buffer_to_redis (fun _ => false)
        ((fun st => increment_visit_redis st page_id)^[n] s)).store (storageKey page_id) =
      dGet s.store (storageKey page_id) + n ∧
    (flush_buffer_to_redis (fun _ => false)
        ((fun st => increment_visit_redis st page_id)^[n] s)).cache.lookup
        (storageKey page_id) = none := by
  obtain ⟨hbuf, hstore⟩ := iterate_increment_shape s page_id habs n hn
  have hl1 : ∀ e ∈ s.write_buffer, e.1 ≠ storageKey page_id := by
    intro e he hc
    exact habs (List.mem_map.mpr ⟨e, he, hc⟩)
  have hposn : ((n : Int) > 0) := by exact_mod_cast hn
  set sn := (fun st => increment_visit_redis st page_id)^[n] s with hsn
  have hne : ¬ sn.write_buffer.isEmpty := by
    rw [hbuf]
    cases s.write_buffer <;> simp
  refine ⟨?_, ?_, ?_, ?_, ?_⟩
  · rw [hbuf, List.countP_append, List.countP_eq_zero.mpr (by
      intro e he
      simpa using hl1 e he)]
    simp
  · rw [hbuf, lookup_append_left_absent _ _ _ habs, lookup_cons]
    simp
  · unfold flush_buffer_to_redis
    rw [if_neg hne, apply_snapshot_nofail_buffer]
  · unfold flush_buffer_to_redis
    rw [if_neg hne]
    rw [show sn.write_buffer = s.write_buffer ++ [(storageKey page_id, (n : Int))] from hbuf]
    rw [apply_snapshot_append]
    set s0 : VCState := { sn with write_buffer := [] } with hs0
    have h1 := apply_snapshot_other (fun _ => false) s.write_buffer (storageKey page_id) hl1 s0
    rw [show apply_snapshot (fun _ => false) [(storageKey page_id, (n : Int))]
          (apply_snapshot (fun _ => false) s.write_buffer s0) =
        apply_flush_entry (fun _ => false)
          (apply_snapshot (fun _ => false) s.write_buffer s0) (storageKey page_id, (n : Int))
        from rfl]
    unfold apply_flush_entry
    rw [if_pos (by simpa using hposn)]
    simp only [Bool.false_eq_true, if_false]
    rw [dGet_redis_increment_self, h1.2.1]
    rw [show (s0.store : List (String × Int)) = sn.store from rfl, hstore]
  · unfold flush_buffer_to_redis
    rw [if_neg hne]
    rw [show sn.write_buffer = s.write_buffer ++ [(storageKey page_id, (n : Int))] from hbuf]
    rw [apply_snapshot_append]
    set s0 : VCState := { sn with write_buffer := [] } with hs0
    rw [show apply_snapshot (fun _ => false) [(storageKey page_id, (n : Int))]
          (apply_snapshot (fun _ => false) s.write_buffer s0) =
        apply_flush_entry (fun _ => false)
          (apply_snapshot (fun _ => false) s.write_buffer s0) (storageKey page_id, (n : Int))
        from rfl]
    unfold apply_flush_entry
    rw [if_pos (by simpa using hposn)]
    simp only [Bool.false_eq_true, if_false]
    show (invalidate_cache (apply_snapshot (fun _ => false) s.write_buffer s0).cache
      (storageKey page_id)).lookup (storageKey page_id) = none
    exact lookup_dictDel_self _ _

theorem C6_witness :
    dGet (flush_buffer_to_redis (fun _ => false)
        ((fun st => increment_visit_redis st "p")^[3]
          { write_buffer := [], cache := [], store := [] })).store (storageKey "p") = 3 := by
  rw [(C6_buffer_conservation { write_buffer := [], cache := [], store := [] } "p" 3
    (by decide) (by decide)).2.2.2.1]
  decide

/-- C5: when the INCRBY for a drained entry raises, the full amount is
re-added into the live buffer, merging with whatever accumulated there
meanwhile, and the store is untouched; a fully failed cycle leaves the
amount pending for the next cycle, and the subsequent successful cycle
applies the full original amount exactly once and clears it. -/
theorem C5_flush_failure_retry (s1 s : VCState) (K : String) (c m : Int) (hc : 0 < c)
    (hm : s1.write_buffer.lookup K = some m)
    (hbuf : s.write_buffer = [(K, c)]) :
    (apply_snapshot (fun _ => true) [(K, c)] s1).write_buffer.lookup K = some (m + c) ∧
    (apply_snapshot (fun _ => true) [(K, c)] s1).store = s1.store ∧
    (flush_buffer_to_redis (fun _ => true) s).write_buffer.lookup K = some c ∧
    (flush_buffer_to_redis (fun _ => true) s).store = s.store ∧
    dGet (flush_buffer_to_redis (fun _ => false)
        (flush_buffer_to_redis (fun _ => true) s)).store K = dGet s.store K + c ∧
    (flush_buffer_to_redis (fun _ => false)
        (flush_buffer_to_redis (fun _ => true) s)).write_buffer = [] := by
  have hs2 : flush_buffer_to_redis (fun _ => true) s =
      { write_buffer := [(K, c)], cache := s.cache, store := s.store } := by
    simp [flush_buffer_to_redis, hbuf, apply_snapshot, apply_flush_entry, hc, buffer_add,
      dictSet, dGet]
  refine ⟨?_, ?_, ?_, ?_, ?_, ?_⟩
  · simp [apply_snapshot, apply_flush_entry, hc, buffer_add, lookup_dictSet_self, dGet, hm]
  · simp [apply_snapshot, apply_flush_entry, hc]
  · rw [hs2]
    simp [lookup_cons]
  · rw [hs2]
  · rw [hs2]
    simp [flush_buffer_to_redis, apply_snapshot, apply_flush_entry, hc,
      dGet_redis_increment_self]
  · rw [hs2]
    simp [flush_buffer_to_redis, apply_snapshot, apply_flush_entry, hc]

theorem C5_witness :
    (apply_snapshot (fun _ => true) [("k", 2)]
        { write_buffer := [("k", 4)], cache := [], store := [] }).write_buffer.lookup "k" =
      some 6 ∧
    (apply_snapshot (fun _ => true) [("k", 2)]
        { write_buffer := [("k", 4)], cache := [], store := [] }).store =
      ({ write_buffer := [("k", 4)], cache := [], store := [] } : VCState).store ∧
    (flush_buffer_to_redis (fun _ => true)
        { write_buffer := [("k", 2)], cache := [], store := [("k", 10)] }).write_buffer.lookup
      "k" = some 2 ∧
    (flush_buffer_to_redis (fun _ => true)
        { write_buffer := [("k", 2)], cache := [], store := [("k", 10)] }).store =
      ({ write_buffer := [("k", 2)], cache := [], store := [("k", 10)] } : VCState).store ∧
    dGet (flush_buffer_to_redis (fun _ => false)
        (flush_buffer_to_redis (fun _ => true)
          { write_buffer := [("k", 2)], cache := [], store := [("k", 10)] })).store "k" =
      dGet ({ write_buffer := [("k", 2)], cache := [], store := [("k", 10)] } : VCState).store
        "k" + 2 ∧
    (flush_buffer_to_redis (fun _ => false)
        (flush_buffer_to_redis (fun _ => true)
          { write_buffer := [("k", 2)], cache := [], store := [("k", 10)] })).write_buffer =
      [] := by
  have h := C5_flush_failure_retry
    { write_buffer := [("k", 4)], cache := [], store := [] }
    { write_buffer := [("k", 2)], cache := [], store := [("k", 10)] }
    "k" 2 4 (by decide) (by decide) (by decide)
  exact ⟨h.1, h.2.1, h.2.2.1, h.2.2.2.1, h.2.2.2.2.1, h.2.2.2.2.2⟩

/-- Unfolding of the flush-loop body at its own entry. -/
theorem apply_flush_entry_self (fails : String → Bool) (A : VCState) (k : String) (c : Int) :
    apply_flush_entry fails A (k, c) =
      if 0 < c then
        (if fails k then { A with write_buffer := buffer_add A.write_buffer k c }
         else
          { A with store := redis_increment A.store k c, cache := invalidate_cache A.cache k })
      else A := rfl

/-- A flush cycle moves pending amounts from the buffer to the store (or
back to the buffer on failure) without changing their sum at any key,
provided buffer keys are unique and pending amounts are non-negative. -/
theorem flush_preserves_durable (fails : String → Bool) (s : VCState)
    (hnd : (s.write_buffer.map Prod.fst).Nodup)
    (hpos : ∀ k, 0 ≤ dGet s.write_buffer k) (k : String) :
    durable_plus_pending (flush_buffer_to_redis fails s) k = durable_plus_pending s k := by
  unfold flush_buffer_to_redis
  by_cases hemp : s.write_buffer.isEmpty
  · rw [if_pos hemp]
  · rw [if_neg hemp]
    set s0 : VCState := { s with write_buffer := [] } with hs0
    cases hlk : s.write_buffer.lookup k with
    | none =>
      have hks : ∀ e ∈ s.write_buffer, e.1 ≠ k := by
        intro e he hc
        have hmem : (s.write_buffer.lookup k).isSome = true :=
          (lookup_isSome_iff_mem_keys _ _).mpr (List.mem_map.mpr ⟨e, he, hc⟩)
        rw [hlk] at hmem
        cases hmem
      have h1 := apply_snapshot_other fails s.write_buffer k hks s0
      have h1b := apply_snapshot_other_buflookup fails s.write_buffer k hks s0
      unfold durable_plus_pending
      rw [h1.2.1, show dGet (apply_snapshot fails s.write_buffer s0).write_buffer k =
        dGet s0.write_buffer k by simp [dGet, h1b]]
      simp [dGet, hlk, List.lookup]
    | some c =>
      obtain ⟨l1, l2, hsplit, hl1⟩ := lookup_split hlk
      have hl2 : ∀ e ∈ l2, e.1 ≠ k := by
        intro e he hc2
        rw [hsplit] at hnd
        simp only [List.map_append, List.map_cons, List.nodup_append] at hnd
        have hKl2 : k ∈ (l2.map Prod.fst) := List.mem_map.mpr ⟨e, he, hc2⟩
        have htl := hnd.2.1
        rw [List.nodup_cons] at htl
        exact htl.1 hKl2
      have hc0 : 0 ≤ c := by
        have hp := hpos k
        rw [dGet, hlk] at hp
        simpa using hp
      have hrhs : dGet s.write_buffer k = c := by
        rw [dGet, hlk]
        rfl
      rw [show s.write_buffer = l1 ++ (k, c) :: l2 from hsplit]
      rw [show (l1 ++ (k, c) :: l2 : List (String × Int)) = (l1 ++ [(k, c)]) ++ l2 by simp]
      rw [apply_snapshot_append, apply_snapshot_append]
      have h1 := apply_snapshot_other fails l1 k hl1 s0
      have h1b := apply_snapshot_other_buflookup fails l1 k hl1 s0
      set A : VCState := apply_snapshot fails l1 s0 with hA
      have hAbuf : dGet A.write_buffer k = 0 := by
        rw [dGet, h1b]
        simp [List.lookup]
      have hAstore : dGet A.store k = dGet s.store k := h1.2.1
      set B : VCState := apply_snapshot fails [(k, c)] A with hB
      have hBchar : dGet B.store k + dGet B.write_buffer k = dGet s.store k + c := by
        rw [show B = apply_flush_entry fails A (k, c) from rfl, apply_flush_entry_self]
        by_cases hcpos : (0 : Int) < c
        · by_cases hf : fails k = true
          · rw [if_pos hcpos, if_pos hf]
            show dGet A.store k + dGet (buffer_add A.write_buffer k c) k = dGet s.store k + c
            rw [dGet_buffer_add_self, hAstore, hAbuf]
            omega
          · rw [if_pos hcpos, if_neg (by simpa using hf)]
            show dGet (redis_increment A.store k c) k + dGet A.write_buffer k =
              dGet s.store k + c
            rw [dGet_redis_increment_self, hAstore, hAbuf]
            omega
        · have hceq : c = 0 := by omega
          subst hceq
          rw [if_neg hcpos, hAstore, hAbuf]
      have h2 := apply_snapshot_other fails l2 k hl2 B
      have h2b := apply_snapshot_other_buflookup fails l2 k hl2 B
      unfold durable_plus_pending
      rw [h2.2.1, show dGet (apply_snapshot fails l2 B).write_buffer k =
        dGet B.write_buffer k by rw [dGet, h2b, dGet], hBchar]
      rw [hrhs]

/-- A read that does not hit a fresh cache entry moves any positive
pending amount from the buffer to the store, leaving durable + pending
unchanged at every key. -/
theorem read_stale_preserves_durable (nodeOf : String → String) (now : Nat) (t : VCState)
    (page_id : String)
    (hmiss : ∀ ve : Int × Nat, t.cache.lookup (storageKey page_id) = some ve → ve.2 ≤ now)
    (k : String) :
    durable_plus_pending (get_visit_count_redis nodeOf now t page_id).2 k =
      durable_plus_pending t k := by
  have hm : ∀ hbuf, (get_visit_count_redis nodeOf now t page_id).2 =
      (read_miss nodeOf now (storageKey page_id) (dGet t.write_buffer (storageKey page_id))
        hbuf t).2 →
      durable_plus_pending
        (read_miss nodeOf now (storageKey page_id) (dGet t.write_buffer (storageKey page_id))
          hbuf t).2 k = durable_plus_pending t k → durable_plus_pending
        (get_visit_count_redis nodeOf now t page_id).2 k = durable_plus_pending t k := by
    intro hbuf h1 h2
    rw [h1, h2]
  cases hc : t.cache.lookup (storageKey page_id) with
  | none =>
    refine hm (if 0 < dGet t.write_buffer (storageKey page_id) then
        dictDel t.write_buffer (storageKey page_id) else t.write_buffer)
      (by simp [get_visit_count_redis, hc]) ?_
    unfold read_miss durable_plus_pending
    by_cases hp : 0 < dGet t.write_buffer (storageKey page_id)
    · simp only [gt_iff_lt, hp, if_true]
      by_cases hk : k = storageKey page_id
      · subst hk
        show dGet (redis_increment t.store (storageKey page_id)
            (dGet t.write_buffer (storageKey page_id))) (storageKey page_id) +
          dGet (dictDel t.write_buffer (storageKey page_id)) (storageKey page_id) =
          dGet t.store (storageKey page_id) + dGet t.write_buffer (storageKey page_id)
        rw [dGet_redis_increment_self, dGet_dictDel_self]
        omega
      · show dGet (redis_increment t.store (storageKey page_id)
            (dGet t.write_buffer (storageKey page_id))) k +
          dGet (dictDel t.write_buffer (storageKey page_id)) k =
          dGet t.store k + dGet t.write_buffer k
        rw [dGet_redis_increment_ne _ _ _ _ hk, dGet_dictDel_ne _ _ _ hk]
    · simp only [gt_iff_lt, hp, if_false]
  | some ve =>
    have hstale : ¬ now < ve.2 := by
      have := hmiss ve hc
      omega
    refine hm (if 0 < dGet t.write_buffer (storageKey page_id) then
        dictDel t.write_buffer (storageKey page_id) else t.write_buffer)
      (by simp [get_visit_count_redis, hc, hstale]) ?_
    unfold read_miss durable_plus_pending
    by_cases hp : 0 < dGet t.write_buffer (storageKey page_id)
    · simp only [gt_iff_lt, hp, if_true]
      by_cases hk : k = storageKey page_id
      · subst hk
        show dGet (redis_increment t.store (storageKey page_id)
            (dGet t.write_buffer (storageKey page_id))) (storageKey page_id) +
          dGet (dictDel t.write_buffer (storageKey page_id)) (storageKey page_id) =
          dGet t.store (storageKey page_id) + dGet t.write_buffer (storageKey page_id)
        rw [dGet_redis_increment_self, dGet_dictDel_self]
        omega
      · show dGet (redis_increment t.store (storageKey page_id)
            (dGet t.write_buffer (storageKey page_id))) k +
          dGet (dictDel t.write_buffer (storageKey page_id)) k =
          dGet t.store k + dGet t.write_buffer k
        rw [dGet_redis_increment_ne _ _ _ _ hk, dGet_dictDel_ne _ _ _ hk]
    · simp only [gt_iff_lt, hp, if_false]

/-- C1 counterexample: the claim fails on the cache-hit read path. At a
state holding pending delta 1, a fresh cache entry and durable count 2
(durable + pending = 3), a read drains the pending delta and serves the
cache, leaving durable + pending = 2: the read changes the invariant
quantity although the logical count is unchanged. -/
theorem C1_counterexample :
    durable_plus_pending
      (get_visit_count_redis (fun _ => "redis://h:7070/0") 3
        { write_buffer := [("visit_counter:p", 1)], cache := [("visit_counter:p", (5, 10))],
          store := [("visit_counter:p", 2)] } "p").2 "visit_counter:p" ≠
    durable_plus_pending
      { write_buffer := [("visit_counter:p", 1)], cache := [("visit_counter:p", (5, 10))],
        store := [("visit_counter:p", 2)] } "visit_counter:p" := by decide

/-- C1 (amended): an increment raises durable count + pending delta by
exactly one at its key and leaves other keys unchanged; a flush cycle
preserves it at every key, as does a read that does not hit a fresh cache
entry — but the cache-hit read path with a positive pending delta drains
the delta without persisting it, decreasing durable + pending by exactly
that amount (the known violation of the intended invariant). -/
theorem C1_invariant_amended (s t u : VCState) (nodeOf : String → String) (now : Nat)
    (page_id : String) (fails : String → Bool) (v : Int) (e : Nat)
    (hnd : (s.write_buffer.map Prod.fst).Nodup)
    (hpos : ∀ k, 0 ≤ dGet s.write_buffer k)
    (hmiss : ∀ ve : Int × Nat, t.cache.lookup (storageKey page_id) = some ve → ve.2 ≤ now)
    (hhit : u.cache.lookup (storageKey page_id) = some (v, e)) (hfresh : now < e)
    (hpend : 0 < dGet u.write_buffer (storageKey page_id)) :
    (durable_plus_pending (increment_visit_redis s page_id) (storageKey page_id) =
      durable_plus_pending s (storageKey page_id) + 1) ∧
    (∀ k, k ≠ storageKey page_id →
      durable_plus_pending (increment_visit_redis s page_id) k = durable_plus_pending s k) ∧
    (∀ k, durable_plus_pending (flush_buffer_to_redis fails s) k =
      durable_plus_pending s k) ∧
    (∀ k, durable_plus_pending (get_visit_count_redis nodeOf now t page_id).2 k =
      durable_plus_pending t k) ∧
    (durable_plus_pending (get_visit_count_redis nodeOf now u page_id).2 (storageKey page_id) =
      durable_plus_pending u (storageKey page_id) -
        dGet u.write_buffer (storageKey page_id)) := by
  refine ⟨?_, ?_, ?_, ?_, ?_⟩
  · unfold durable_plus_pending increment_visit_redis
    show dGet s.store (storageKey page_id) +
      dGet (buffer_add s.write_buffer (storageKey page_id) 1) (storageKey page_id) = _
    rw [dGet_buffer_add_self]
    omega
  · intro k hk
    unfold durable_plus_pending increment_visit_redis
    show dGet s.store k + dGet (buffer_add s.write_buffer (storageKey page_id) 1) k = _
    rw [dGet_buffer_add_ne _ _ _ _ hk]
  · intro k
    exact flush_preserves_durable fails s hnd hpos k
  · intro k
    exact read_stale_preserves_durable nodeOf now t page_id hmiss k
  · have hred : (get_visit_count_redis nodeOf now u page_id).2 =
        { u with write_buffer := dictDel u.write_buffer (storageKey page_id) } := by
      simp [get_visit_count_redis, hhit, hfresh, hpend]
    rw [hred]
    unfold durable_plus_pending
    show dGet u.store (storageKey page_id) +
      dGet (dictDel u.write_buffer (storageKey page_id)) (storageKey page_id) = _
    rw [dGet_dictDel_self]
    omega

theorem C1_witness :
    durable_plus_pending
      (increment_visit_redis
        { write_buffer := [("visit_counter:p", 2)], cache := [], store := [] } "p")
      (storageKey "p") =
    durable_plus_pending
      ({ write_buffer := [("visit_counter:p", 2)], cache := [], store := [] } : VCState)
      (storageKey "p") + 1 ∧
    durable_plus_pending
      (get_visit_count_redis (fun _ => "redis://h:7070/0") 3
        { write_buffer := [("visit_counter:p", 1)], cache := [("visit_counter:p", (5, 10))],
          store := [("visit_counter:p", 2)] } "p").2 (storageKey "p") =
    durable_plus_pending
      ({ write_buffer := [("visit_counter:p", 1)], cache := [("visit_counter:p", (5, 10))],
         store := [("visit_counter:p", 2)] } : VCState) (storageKey "p") -
      dGet ({ write_buffer := [("visit_counter:p", 1)],
              cache := [("visit_counter:p", (5, 10))],
              store := [("visit_counter:p", 2)] } : VCState).write_buffer (storageKey "p") := by
  have h := C1_invariant_amended
    { write_buffer := [("visit_counter:p", 2)], cache := [], store := [] }
    { write_buffer := [], cache := [], store := [] }
    { write_buffer := [("visit_counter:p", 1)], cache := [("visit_counter:p", (5, 10))],
      store := [("visit_counter:p", 2)] }
    (fun _ => "redis://h:7070/0") 3 "p" (fun _ => false) 5 10
    (by decide)
    (by
      intro k
      rw [dGet, lookup_cons]
      by_cases hk : k = "visit_counter:p" <;> simp [hk, List.lookup])
    (by intro ve h; simp [List.lookup] at h)
    (by decide) (by decide) (by decide)
  exact ⟨h.1, h.2.2.2.2⟩

/-! ## Ring lemmas: bisect successor, membership invariants -/

/-- A successful lookup names an entry of the list. -/
theorem lookup_mem {α β : Type} [DecidableEq α] {l : List (α × β)} {k : α} {v : β}
    (h : l.lookup k = some v) : (k, v) ∈ l := by
  induction l with
  | nil => simp [List.lookup] at h
  | cons p t ih =>
    rw [lookup_cons] at h
    by_cases hp : k = p.1
    · rw [if_pos hp] at h
      cases p with
    | mk a b =>
      simp at hp h
      simp [hp, h]
    · rw [if_neg hp] at h
      exact List.mem_cons_of_mem _ (ih h)

/-- On a list sorted by ≤, the element at the bisect_right insertion
point (the count of elements ≤ x) is the first element strictly greater
than x. -/
theorem sorted_get_countP {l : List Nat} (hs : l.Sorted (· ≤ ·)) (x : Nat) :
    l.get? (l.countP fun y => decide (y ≤ x)) = l.find? fun y => decide (x < y) := by
  induction l with
  | nil => rfl
  | cons a t ih =>
    rw [List.sorted_cons] at hs
    by_cases ha : a ≤ x
    · have hcons : List.countP (fun y => decide (y ≤ x)) (a :: t) =
          List.countP (fun y => decide (y ≤ x)) t + 1 := by
        rw [List.countP_cons]
        simp [ha]
      rw [hcons]
      rw [show (a :: t).get? (List.countP (fun y => decide (y ≤ x)) t + 1) =
        t.get? (List.countP (fun y => decide (y ≤ x)) t) from rfl]
      rw [ih hs.2, List.find?_cons_of_neg _ (by simpa using Nat.not_lt.mpr ha)]
    · have hlt : x < a := Nat.not_le.mp ha
      have hct : List.countP (fun y => decide (y ≤ x)) t = 0 := by
        rw [List.countP_eq_zero]
        intro b hb
        have hab := hs.1 b hb
        simp only [decide_eq_true_eq]
        omega
      have hcons : List.countP (fun y => decide (y ≤ x)) (a :: t) = 0 := by
        rw [List.countP_cons, hct]
        simp [ha]
      rw [hcons, show (a :: t).get? 0 = some a from rfl,
        List.find?_cons_of_pos _ (by simpa using hlt)]

/-- C3 (amended): on a well-formed ring state, get_node resolves a key to
the node of the first ring entry whose hash is strictly greater than the
key's hash, wrapping to the entry with the smallest hash when no entry's
hash is strictly greater — a key whose hash equals an entry's hash skips
that entry (Python bisect = bisect_right). -/
theorem C3_strict_successor (c : ConsistentHash) (key : String)
    (hs : c.sorted_keys.Sorted (· ≤ ·)) (hr : ¬ c.ring.isEmpty = true)
    (hk : c.sorted_keys ≠ []) :
    ∃ h, strictSucc c.sorted_keys (md5Int key) = some h ∧
      get_node c key = (match c.ring.lookup h with
        | some node => Except.ok node
        | none => Except.error "KeyError") := by
  have hget := sorted_get_countP hs (md5Int key)
  cases hf : c.sorted_keys.find? (fun h => decide (md5Int key < h)) with
  | some h =>
    rw [hf] at hget
    have hget2 : c.sorted_keys.get? (bisect_right c.sorted_keys (md5Int key)) = some h := hget
    have hlt : bisect_right c.sorted_keys (md5Int key) < c.sorted_keys.length := by
      by_contra hge
      rw [List.get?_eq_none.mpr (by omega)] at hget2
      cases hget2
    refine ⟨h, by simp [strictSucc, hf, Option.orElse], ?_⟩
    unfold get_node
    rw [if_neg hr]
    show (match c.sorted_keys.get?
        (if bisect_right c.sorted_keys (md5Int key) ≥ c.sorted_keys.length then 0
         else bisect_right c.sorted_keys (md5Int key)) with
      | none => Except.error "IndexError"
      | some h2 =>
        match c.ring.lookup h2 with
        | some node => Except.ok node
        | none => Except.error "KeyError") =
      (match c.ring.lookup h with
        | some node => Except.ok node
        | none => Except.error "KeyError")
    rw [if_neg (by omega), hget2]
  | none =>
    obtain ⟨h0, t0, hcons⟩ := List.exists_cons_of_ne_nil hk
    rw [hf] at hget
    have hget2 : c.sorted_keys.get? (bisect_right c.sorted_keys (md5Int key)) = none := hget
    have hge : c.sorted_keys.length ≤ bisect_right c.sorted_keys (md5Int key) :=
      List.get?_eq_none.mp hget2
    refine ⟨h0, ?_, ?_⟩
    · unfold strictSucc
      rw [hf, hcons]
      rfl
    · unfold get_node
      rw [if_neg hr]
      show (match c.sorted_keys.get?
          (if bisect_right c.sorted_keys (md5Int key) ≥ c.sorted_keys.length then 0
           else bisect_right c.sorted_keys (md5Int key)) with
        | none => Except.error "IndexError"
        | some h2 =>
          match c.ring.lookup h2 with
          | some node => Except.ok node
          | none => Except.error "KeyError") =
        (match c.ring.lookup h0 with
          | some node => Except.ok node
          | none => Except.error "KeyError")
      rw [if_pos (by omega), show c.sorted_keys.get? 0 = some h0 by rw [hcons]; rfl]

/-- C3 counterexample: with shards a and b at one virtual node each, the
key "a:0" hashes exactly onto shard a's ring entry; the first entry with
hash greater than or equal to the key's hash is owned by "a", but
get_node (Python bisect, strictly-greater successor) returns "b". -/
theorem C3_counterexample :
    get_node (mkConsistentHash ["a", "b"] 1) "a:0" = Except.ok "b" ∧
    specResolve (mkConsistentHash ["a", "b"] 1) "a:0" = some "a" ∧
    ("b" : String) ≠ "a" := by decide

theorem C3_witness :
    ∃ h, strictSucc (mkConsistentHash ["a", "b"] 1).sorted_keys (md5Int "x") = some h ∧
      get_node (mkConsistentHash ["a", "b"] 1) "x" =
        (match (mkConsistentHash ["a", "b"] 1).ring.lookup h with
          | some node => Except.ok node
          | none => Except.error "KeyError") :=
  C3_strict_successor (mkConsistentHash ["a", "b"] 1) "x" (by decide) (by decide) (by decide)

theorem mem_dictSet {α β : Type} [DecidableEq α] {l : List (α × β)} {k : α} {v : β}
    {p : α × β} (h : p ∈ dictSet l k v) : p ∈ l ∨ p = (k, v) := by
  induction l with
  | nil => simpa [dictSet] using h
  | cons q t ih =>
    by_cases hq : q.1 = k
    · rw [show dictSet (q :: t) k v = (k, v) :: t by simp [dictSet, hq]] at h
      rcases List.mem_cons.mp h with rfl | hin
      · exact Or.inr rfl
      · exact Or.inl (List.mem_cons_of_mem _ hin)
    · rw [show dictSet (q :: t) k v = q :: dictSet t k v by simp [dictSet, hq]] at h
      rcases List.mem_cons.mp h with rfl | hin
      · exact Or.inl (List.mem_cons_self _ _)
      · rcases ih hin with h1 | h2
        · exact Or.inl (List.mem_cons_of_mem _ h1)
        · exact Or.inr h2

theorem dictSet_lookup_isSome {α β : Type} [DecidableEq α] (l : List (α × β)) (k k2 : α)
    (v : β) (h : (l.lookup k2).isSome = true) : ((dictSet l k v).lookup k2).isSome = true := by
  by_cases hk : k2 = k
  · subst hk
    rw [lookup_dictSet_self]
    rfl
  · rw [lookup_dictSet_ne _ _ _ _ hk]
    exact h

theorem foldl_dictSet_preserves_isSome (hs : List Nat) (node : String) (h2 : Nat) :
    ∀ r0 : List (Nat × String), ((r0.lookup h2).isSome = true) →
      (((hs.foldl (fun r h => dictSet r h node) r0).lookup h2).isSome = true) := by
  induction hs with
  | nil => intro r0 h; exact h
  | cons a t ih =>
    intro r0 h
    exact ih (dictSet r0 a node) (dictSet_lookup_isSome r0 a h2 node h)

theorem foldl_dictSet_isSome_of_mem (hs : List Nat) (node : String) (h2 : Nat)
    (hmem : h2 ∈ hs) :
    ∀ r0 : List (Nat × String),
      (((hs.foldl (fun r h => dictSet r h node) r0).lookup h2).isSome = true) := by
  induction hs with
  | nil => cases hmem
  | cons a t ih =>
    intro r0
    rcases List.mem_cons.mp hmem with rfl | hin
    · exact foldl_dictSet_preserves_isSome t node h2 (dictSet r0 h2 node)
        (by rw [lookup_dictSet_self]; rfl)
    · exact ih hin (dictSet r0 a node)

theorem mem_foldl_dictSet (hs : List Nat) (node : String) (p : Nat × String) :
    ∀ r0 : List (Nat × String), p ∈ hs.foldl (fun r h => dictSet r h node) r0 →
      p ∈ r0 ∨ p.2 = node := by
  induction hs with
  | nil => intro r0 h; exact Or.inl h
  | cons a t ih =>
    intro r0 h
    rcases ih (dictSet r0 a node) h with hin | heq
    · rcases mem_dictSet hin with h1 | h2
      · exact Or.inl h1
      · rw [h2]
        exact Or.inr rfl
    · exact Or.inr heq

/-- Invariants maintained by the add-only ring construction: every ring
entry's node is registered, and every sorted hash resolves in the ring
dict. -/
def RingInv (c : ConsistentHash) : Prop :=
  (∀ p ∈ c.ring, p.2 ∈ c.nodes) ∧ (∀ h ∈ c.sorted_keys, (c.ring.lookup h).isSome = true)

theorem add_node_inv (c : ConsistentHash) (node : String) (h : RingInv c) :
    RingInv (add_node c node) := by
  unfold add_node
  by_cases hmem : node ∈ c.nodes
  · rw [if_pos hmem]
    exact h
  · rw [if_neg hmem]
    constructor
    · intro p hp
      rcases mem_foldl_dictSet _ _ _ _ hp with hin | heq
      · exact List.mem_append_left _ (h.1 p hin)
      · rw [heq]
        simp
    · intro h2 hh2
      have hh3 : h2 ∈ c.sorted_keys ++ vnodeHashes node c.virtual_nodes :=
        ((List.perm_insertionSort _ _).mem_iff).mp hh2
      rcases List.mem_append.mp hh3 with hold | hnew
      · exact foldl_dictSet_preserves_isSome _ _ _ _ (h.2 h2 hold)
      · exact foldl_dictSet_isSome_of_mem _ _ _ hnew _

theorem foldl_add_inv (ns : List String) :
    ∀ c, RingInv c → RingInv (ns.foldl add_node c) := by
  induction ns with
  | nil => intro c h; exact h
  | cons n t ih => intro c h; exact ih _ (add_node_inv c n h)

theorem mk_inv (nodes : List String) (vn : Nat) : RingInv (mkConsistentHash nodes vn) :=
  foldl_add_inv nodes _ ⟨by simp, by simp⟩

theorem add_node_sorted_ne (c : ConsistentHash) (node : String)
    (h : c.sorted_keys ≠ []) : (add_node c node).sorted_keys ≠ [] := by
  unfold add_node
  by_cases hmem : node ∈ c.nodes
  · rw [if_pos hmem]
    exact h
  · rw [if_neg hmem]
    show ((c.sorted_keys ++ vnodeHashes node c.virtual_nodes).insertionSort (· ≤ ·)) ≠ []
    have hlen : ((c.sorted_keys ++ vnodeHashes node c.virtual_nodes).insertionSort
        (· ≤ ·)).length = (c.sorted_keys ++ vnodeHashes node c.virtual_nodes).length :=
      (List.perm_insertionSort _ _).length_eq
    intro hnil
    rw [hnil] at hlen
    simp only [List.length_nil, List.length_append] at hlen
    exact h (List.eq_nil_of_length_eq_zero (by omega))

theorem foldl_add_sorted_ne (ns : List String) :
    ∀ c, c.sorted_keys ≠ [] → (ns.foldl add_node c).sorted_keys ≠ [] := by
  induction ns with
  | nil => intro c h; exact h
  | cons n t ih => intro c h; exact ih _ (add_node_sorted_ne c n h)

theorem mk_sorted_ne (nodes : List String) (vn : Nat) (hvn : 1 ≤ vn) (hne : nodes ≠ []) :
    (mkConsistentHash nodes vn).sorted_keys ≠ [] := by
  obtain ⟨n0, t, rfl⟩ := List.exists_cons_of_ne_nil hne
  unfold mkConsistentHash
  rw [List.foldl_cons]
  refine foldl_add_sorted_ne t _ ?_
  unfold add_node
  rw [if_neg (by simp)]
  show (([] ++ vnodeHashes n0 vn).insertionSort (· ≤ ·)) ≠ []
  have hlen : (([] ++ vnodeHashes n0 vn).insertionSort (· ≤ ·)).length =
      ([] ++ vnodeHashes n0 vn).length := (List.perm_insertionSort _ _).length_eq
  intro hnil
  rw [hnil] at hlen
  simp only [List.length_nil, List.nil_append, List.length_append, vnodeHashes,
    List.length_map, List.length_range] at hlen
  omega

/-- C4: get_node raises the empty-ring error exactly when no shards are
registered; with any non-empty shard set (and at least one virtual node
per shard) it never fails and returns a shard registered in the current
shard set. -/
theorem C4_ring_coverage (nodes : List String) (vn : Nat) (key : String) (hvn : 1 ≤ vn) :
    (nodes = [] →
      get_node (mkConsistentHash nodes vn) key = Except.error "Hash ring is empty") ∧
    (nodes ≠ [] → ∃ n, get_node (mkConsistentHash nodes vn) key = Except.ok n ∧
      n ∈ (mkConsistentHash nodes vn).nodes) := by
  constructor
  · intro h
    subst h
    rfl
  · intro hne
    have hinv := mk_inv nodes vn
    have hsne := mk_sorted_ne nodes vn hvn hne
    set c := mkConsistentHash nodes vn with hc
    obtain ⟨h0, t0, hcons⟩ := List.exists_cons_of_ne_nil hsne
    have hrne : ¬ c.ring.isEmpty = true := by
      intro hemp
      have hnil : c.ring = [] := by
        cases hr : c.ring with
        | nil => rfl
        | cons a b => rw [hr] at hemp; cases hemp
      have hsome := hinv.2 h0 (by rw [hcons]; exact List.mem_cons_self _ _)
      rw [hnil] at hsome
      cases hsome
    have hidx : ∃ h2, c.sorted_keys.get?
        (if bisect_right c.sorted_keys (md5Int key) ≥ c.sorted_keys.length then 0
         else bisect_right c.sorted_keys (md5Int key)) = some h2 := by
      by_cases hwrap : bisect_right c.sorted_keys (md5Int key) ≥ c.sorted_keys.length
      · rw [if_pos hwrap, hcons]
        exact ⟨h0, rfl⟩
      · rw [if_neg hwrap]
        cases hg : c.sorted_keys.get? (bisect_right c.sorted_keys (md5Int key)) with
        | none =>
          have := List.get?_eq_none.mp hg
          omega
        | some a => exact ⟨a, rfl⟩
    obtain ⟨h2, hh2⟩ := hidx
    have hmem2 : h2 ∈ c.sorted_keys := List.get?_mem hh2
    have hsome := hinv.2 h2 hmem2
    cases hlk : c.ring.lookup h2 with
    | none => rw [hlk] at hsome; cases hsome
    | some n =>
      refine ⟨n, ?_, hinv.1 (h2, n) (lookup_mem hlk)⟩
      unfold get_node
      rw [if_neg hrne]
      show (match c.sorted_keys.get?
          (if bisect_right c.sorted_keys (md5Int key) ≥ c.sorted_keys.length then 0
           else bisect_right c.sorted_keys (md5Int key)) with
        | none => Except.error "IndexError"
        | some h3 =>
          match c.ring.lookup h3 with
          | some node => Except.ok node
          | none => Except.error "KeyError") = Except.ok n
      rw [hh2]
      simp [hlk]

theorem C4_witness :
    ∃ n, get_node (mkConsistentHash ["a"] 1) "x" = Except.ok n ∧
      n ∈ (mkConsistentHash ["a"] 1).nodes :=
  (C4_ring_coverage ["a"] 1 "x" (by decide)).2 (by decide)

/-! ## Removal characterization of the ring -/

theorem ConsistentHash_eq {x y : ConsistentHash} (h1 : x.virtual_nodes = y.virtual_nodes)
    (h2 : x.ring = y.ring) (h3 : x.sorted_keys = y.sorted_keys) (h4 : x.nodes = y.nodes) :
    x = y := by
  cases x
  cases y
  simp_all

theorem lookup_filter_not_mem {β : Type} (l : List (Nat × β)) (hs : List Nat) (k : Nat)
    (hk : k ∉ hs) :
    (l.filter fun p => decide (¬ p.1 ∈ hs)).lookup k = l.lookup k := by
  induction l with
  | nil => rfl
  | cons p t ih =>
    by_cases hp : p.1 ∈ hs
    · rw [List.filter_cons, if_neg (by simpa using hp)]
      have hkp : k ≠ p.1 := fun he => hk (he ▸ hp)
      rw [ih, lookup_cons, if_neg hkp]
    · rw [List.filter_cons, if_pos (by simpa using hp)]
      rw [lookup_cons, lookup_cons, ih]

theorem find?_filter_found (l : List Nat) (p q : Nat → Bool) (a : Nat)
    (hf : l.find? p = some a) (hq : q a = true) : (l.filter q).find? p = some a := by
  induction l with
  | nil => cases hf
  | cons b t ih =>
    by_cases hb : p b = true
    · rw [List.find?_cons_of_pos _ hb] at hf
      injection hf with hf
      subst hf
      rw [List.filter_cons, if_pos hq, List.find?_cons_of_pos _ hb]
    · rw [List.find?_cons_of_neg _ hb] at hf
      rw [List.filter_cons]
      by_cases hqb : q b = true
      · rw [if_pos hqb, List.find?_cons_of_neg _ hb]
        exact ih hf
      · rw [if_neg hqb]
        exact ih hf

theorem find?_filter_none (l : List Nat) (p q : Nat → Bool)
    (hf : l.find? p = none) : (l.filter q).find? p = none := by
  rw [List.find?_eq_none] at hf ⊢
  intro x hx
  exact hf x (List.mem_of_mem_filter hx)

theorem remove_step_eq (r : List (Nat × String)) (sk : List Nat) (h0 : Nat) :
    remove_step (r, sk) h0 =
      if (r.lookup h0).isSome then (dictDel r h0, sk.erase h0) else (r, sk) := rfl

/-- The removal loop of remove_node equals filtering the ring and the
sorted hash list by the removed hash set, for any state whose sorted
hashes are duplicate-free and agree with the ring dict's key set. -/
theorem removeFold_filter (hs : List Nat) :
    ∀ (r : List (Nat × String)) (sk : List Nat), sk.Nodup →
      (∀ h2 : Nat, ((r.lookup h2).isSome = true) ↔ h2 ∈ sk) →
      hs.foldl remove_step (r, sk) =
      (r.filter fun p => decide (¬ p.1 ∈ hs), sk.filter fun h2 => decide (¬ h2 ∈ hs)) := by
  induction hs with
  | nil =>
    intro r sk hnd hcons
    rw [List.filter_eq_self.mpr (by intro a _; simp),
      List.filter_eq_self.mpr (by intro a _; simp)]
    rfl
  | cons h0 t ih =>
    intro r sk hnd hcons
    rw [List.foldl_cons, remove_step_eq]
    by_cases hsome : (r.lookup h0).isSome = true
    · rw [if_pos hsome]
      have hnd2 : (sk.erase h0).Nodup := hnd.erase h0
      have hcons2 : ∀ h2 : Nat, (((dictDel r h0).lookup h2).isSome = true) ↔
          h2 ∈ sk.erase h0 := by
        intro h2
        by_cases h20 : h2 = h0
        · subst h20
          rw [lookup_dictDel_self]
          constructor
          · intro hfalse
            cases hfalse
          · intro hmem
            rw [hnd.erase_eq_filter h2] at hmem
            simp at hmem
        · rw [lookup_dictDel_ne _ _ _ h20, hcons h2, List.mem_erase_of_ne h20]
      rw [ih (dictDel r h0) (sk.erase h0) hnd2 hcons2]
      refine Prod.ext ?_ ?_
      · show (dictDel r h0).filter (fun p => decide (¬ p.1 ∈ t)) = _
        unfold dictDel
        rw [List.filter_filter]
        refine List.filter_congr ?_
        intro x _
        by_cases h1 : x.1 = h0 <;> by_cases h2 : x.1 ∈ t <;>
          simp [List.mem_cons, h1, h2]
      · show (sk.erase h0).filter (fun h2 => decide (¬ h2 ∈ t)) = _
        rw [hnd.erase_eq_filter h0, List.filter_filter]
        refine List.filter_congr ?_
        intro x _
        by_cases h1 : x = h0 <;> by_cases h2 : x ∈ t <;>
          simp [List.mem_cons, h1, h2, bne]
    · rw [if_neg hsome, ih r sk hnd hcons]
      have h0sk : h0 ∉ sk := fun hmem => hsome ((hcons h0).mpr hmem)
      refine Prod.ext ?_ ?_
      · show r.filter (fun p => decide (¬ p.1 ∈ t)) = _
        refine List.filter_congr ?_
        intro x hx
        have hx1 : x.1 ∈ sk := (hcons x.1).mp
          ((lookup_isSome_iff_mem_keys r x.1).mpr (List.mem_map.mpr ⟨x, hx, rfl⟩))
        refine decide_eq_decide.mpr ?_
        have hxne : x.1 ≠ h0 := fun he => h0sk (he ▸ hx1)
        simp [List.mem_cons, hxne]
      · show sk.filter (fun h2 => decide (¬ h2 ∈ t)) = _
        refine List.filter_congr ?_
        intro x hx
        refine decide_eq_decide.mpr ?_
        have hxne : x ≠ h0 := fun he => h0sk (he ▸ hx)
        simp [List.mem_cons, hxne]

/-- remove_node on a present node filters the ring and sorted hashes by
the node's virtual hash set, and deregisters the node. -/
theorem remove_node_filter (c : ConsistentHash) (node : String) (hmem : node ∈ c.nodes)
    (hnd : c.sorted_keys.Nodup)
    (hcons : ∀ h2 : Nat, ((c.ring.lookup h2).isSome = true) ↔ h2 ∈ c.sorted_keys) :
    (remove_node c node).virtual_nodes = c.virtual_nodes ∧
    (remove_node c node).ring =
      c.ring.filter (fun p => decide (¬ p.1 ∈ vnodeHashes node c.virtual_nodes)) ∧
    (remove_node c node).sorted_keys =
      c.sorted_keys.filter (fun h2 => decide (¬ h2 ∈ vnodeHashes node c.virtual_nodes)) ∧
    (remove_node c node).nodes = c.nodes.erase node := by
  unfold remove_node
  rw [if_pos hmem, removeFold_filter _ c.ring c.sorted_keys hnd hcons]
  exact ⟨rfl, rfl, rfl, rfl⟩

/-- Inserting pairwise-distinct hashes that are fresh to the ring dict
appends their entries in order. -/
theorem foldl_dictSet_fresh (hs : List Nat) (node : String) :
    ∀ r0 : List (Nat × String), (∀ h ∈ hs, r0.lookup h = none) → hs.Nodup →
      hs.foldl (fun r h => dictSet r h node) r0 = r0 ++ hs.map (fun h => (h, node)) := by
  induction hs with
  | nil =>
    intro r0 _ _
    simp
  | cons a t ih =>
    intro r0 hf hd
    rw [List.foldl_cons]
    have ha : r0.lookup a = none := hf a (List.mem_cons_self _ _)
    have haset : dictSet r0 a node = r0 ++ [(a, node)] := by
      refine dictSet_absent _ _ _ ?_
      intro hmem2
      have hsome := (lookup_isSome_iff_mem_keys r0 a).mpr hmem2
      rw [ha] at hsome
      cases hsome
    rw [haset, ih (r0 ++ [(a, node)]) ?_ (List.nodup_cons.mp hd).2]
    · simp
    · intro h hh
      have hne : h ≠ a := by
        rintro rfl
        exact (List.nodup_cons.mp hd).1 hh
      refine lookup_eq_none_of_absent ?_
      rw [List.map_append]
      intro hmem2
      rcases List.mem_append.mp hmem2 with hin | hin
      · have hsome := (lookup_isSome_iff_mem_keys r0 h).mpr hin
        rw [hf h (List.mem_cons_of_mem _ hh)] at hsome
        cases hsome
      · simp at hin
        exact hne hin

/-- Adding a fresh node (all its virtual hashes new to the ring) and
removing it again restores the original ring state exactly. -/
theorem add_remove_roundtrip (c : ConsistentHash) (node : String)
    (habs : node ∉ c.nodes)
    (hfresh : ∀ h ∈ vnodeHashes node c.virtual_nodes,
      c.ring.lookup h = none ∧ h ∉ c.sorted_keys)
    (hhnd : (vnodeHashes node c.virtual_nodes).Nodup)
    (hsort : c.sorted_keys.Sorted (· ≤ ·))
    (hnd : c.sorted_keys.Nodup)
    (hcons : ∀ h2 : Nat, ((c.ring.lookup h2).isSome = true) ↔ h2 ∈ c.sorted_keys) :
    remove_node (add_node c node) node = c := by
  have hvn : (add_node c node).virtual_nodes = c.virtual_nodes := by
    unfold add_node
    rw [if_neg habs]
  have haddr : (add_node c node).ring =
      c.ring ++ (vnodeHashes node c.virtual_nodes).map (fun h => (h, node)) := by
    unfold add_node
    rw [if_neg habs]
    exact foldl_dictSet_fresh _ _ _ (fun h hh => (hfresh h hh).1) hhnd
  have hadds : (add_node c node).sorted_keys =
      (c.sorted_keys ++ vnodeHashes node c.virtual_nodes).insertionSort (· ≤ ·) := by
    unfold add_node
    rw [if_neg habs]
  have haddn : (add_node c node).nodes = c.nodes ++ [node] := by
    unfold add_node
    rw [if_neg habs]
  have hmem2 : node ∈ (add_node c node).nodes := by
    rw [haddn]
    simp
  have hnd2 : (add_node c node).sorted_keys.Nodup := by
    rw [hadds]
    refine (List.perm_insertionSort _ _).symm.nodup ?_
    refine List.Nodup.append hnd hhnd ?_
    intro a ha hb
    exact (hfresh a hb).2 ha
  have hcons2 : ∀ h2 : Nat, (((add_node c node).ring.lookup h2).isSome = true) ↔
      h2 ∈ (add_node c node).sorted_keys := by
    intro h2
    rw [haddr, hadds, lookup_isSome_iff_mem_keys, (List.perm_insertionSort _ _).mem_iff]
    rw [List.map_append, List.mem_append, List.mem_append]
    have hmap : ((vnodeHashes node c.virtual_nodes).map (fun h => (h, node))).map Prod.fst =
        vnodeHashes node c.virtual_nodes := by
      rw [List.map_map, show (Prod.fst ∘ fun h : Nat => (h, node)) = id from rfl, List.map_id]
    rw [hmap]
    have hfirst : h2 ∈ c.ring.map Prod.fst ↔ h2 ∈ c.sorted_keys := by
      rw [← lookup_isSome_iff_mem_keys]
      exact hcons h2
    rw [hfirst]
  obtain ⟨hvr, hrr, hrs, hrn⟩ := remove_node_filter (add_node c node) node hmem2 hnd2 hcons2
  refine ConsistentHash_eq (by rw [hvr, hvn]) ?_ ?_ ?_
  · rw [hrr, haddr, hvn, List.filter_append]
    have hself1 : c.ring.filter
        (fun p => decide (¬ p.1 ∈ vnodeHashes node c.virtual_nodes)) = c.ring := by
      refine List.filter_eq_self.mpr ?_
      intro p hp
      simp only [decide_eq_true_eq]
      intro hin
      have hsome := (lookup_isSome_iff_mem_keys c.ring p.1).mpr
        (List.mem_map.mpr ⟨p, hp, rfl⟩)
      rw [(hfresh p.1 hin).1] at hsome
      cases hsome
    have hnil1 : ((vnodeHashes node c.virtual_nodes).map (fun h => (h, node))).filter
        (fun p => decide (¬ p.1 ∈ vnodeHashes node c.virtual_nodes)) = [] := by
      refine List.filter_eq_nil_iff.mpr ?_
      intro p hp
      simp only [decide_eq_true_eq, Decidable.not_not]
      obtain ⟨h, hh, rfl⟩ := List.mem_map.mp hp
      exact hh
    rw [hself1, hnil1, List.append_nil]
  · rw [hrs, hadds, hvn]
    refine List.eq_of_perm_of_sorted ?_ ?_ hsort
    · refine ((List.perm_insertionSort _ _).filter _).trans ?_
      rw [List.filter_append]
      have hself2 : c.sorted_keys.filter
          (fun h2 => decide (¬ h2 ∈ vnodeHashes node c.virtual_nodes)) = c.sorted_keys := by
        refine List.filter_eq_self.mpr ?_
        intro a ha
        simp only [decide_eq_true_eq]
        intro hin
        exact (hfresh a hin).2 ha
      have hnil2 : (vnodeHashes node c.virtual_nodes).filter
          (fun h2 => decide (¬ h2 ∈ vnodeHashes node c.virtual_nodes)) = [] := by
        refine List.filter_eq_nil_iff.mpr ?_
        intro a ha
        simp only [decide_eq_true_eq, Decidable.not_not]
        exact ha
      rw [hself2, hnil2, List.append_nil]
    · exact (List.sorted_insertionSort _ _).filter _
  · rw [hrn, haddn, List.erase_append_right _ habs, List.erase_cons_head, List.append_nil]

/-- Removing one shard preserves the resolution of every key that did not
resolve to it: the surviving strict successor entry (or wrapped minimum)
is unchanged by deleting only the removed shard's entries. -/
theorem remove_preserves_resolution (c : ConsistentHash) (S key T : String)
    (hmem : S ∈ c.nodes)
    (hsort : c.sorted_keys.Sorted (· ≤ ·))
    (hnd : c.sorted_keys.Nodup)
    (hcons : ∀ h2 : Nat, ((c.ring.lookup h2).isSome = true) ↔ h2 ∈ c.sorted_keys)
    (hown : ∀ p ∈ c.ring, (p.2 = S ↔ p.1 ∈ vnodeHashes S c.virtual_nodes))
    (hres : get_node c key = Except.ok T) (hTS : T ≠ S) :
    get_node (remove_node c S) key = Except.ok T := by
  have hrne : ¬ c.ring.isEmpty = true := by
    intro hemp
    unfold get_node at hres
    rw [if_pos hemp] at hres
    cases hres
  have hkne : c.sorted_keys ≠ [] := by
    intro hnil
    unfold get_node at hres
    rw [if_neg hrne] at hres
    have hres2 : (match c.sorted_keys.get?
        (if bisect_right c.sorted_keys (md5Int key) ≥ c.sorted_keys.length then 0
         else bisect_right c.sorted_keys (md5Int key)) with
      | none => Except.error "IndexError"
      | some h =>
        match c.ring.lookup h with
        | some node => Except.ok node
        | none => Except.error "KeyError") = Except.ok T := hres
    rw [show c.sorted_keys.get?
        (if bisect_right c.sorted_keys (md5Int key) ≥ c.sorted_keys.length then 0
         else bisect_right c.sorted_keys (md5Int key)) = none by
      rw [List.get?_eq_none, hnil]
      simp] at hres2
    cases hres2
  obtain ⟨h1, hsucc, hmatch⟩ := C3_strict_successor c key hsort hrne hkne
  rw [hmatch] at hres
  have hT : c.ring.lookup h1 = some T := by
    cases hlk : c.ring.lookup h1 with
    | none =>
      rw [hlk] at hres
      cases hres
    | some n =>
      rw [hlk] at hres
      simp at hres
      rw [hres]
  have hmemring : (h1, T) ∈ c.ring := lookup_mem hT
  have hnotin : h1 ∉ vnodeHashes S c.virtual_nodes := fun hin =>
    hTS ((hown _ hmemring).mpr hin)
  have h1sorted : h1 ∈ c.sorted_keys := (hcons h1).mp (by rw [hT]; rfl)
  obtain ⟨hvr, hrr, hrs, hrnodes⟩ := remove_node_filter c S hmem hnd hcons
  have hlk2 : (remove_node c S).ring.lookup h1 = some T := by
    rw [hrr]
    rw [lookup_filter_not_mem _ _ _ hnotin]
    exact hT
  have hrne2 : ¬ (remove_node c S).ring.isEmpty = true := by
    intro hemp
    have hnil : (remove_node c S).ring = [] := by
      cases hr : (remove_node c S).ring with
      | nil => rfl
      | cons a b =>
        rw [hr] at hemp
        cases hemp
    rw [hnil] at hlk2
    cases hlk2
  have hm2 : h1 ∈ (remove_node c S).sorted_keys := by
    rw [hrs]
    exact List.mem_filter.mpr ⟨h1sorted, by simpa using hnotin⟩
  have hkne2 : (remove_node c S).sorted_keys ≠ [] := by
    intro hnil
    rw [hnil] at hm2
    cases hm2
  have hsort2 : (remove_node c S).sorted_keys.Sorted (· ≤ ·) := by
    rw [hrs]
    exact hsort.filter _
  obtain ⟨h2, hsucc2, hmatch2⟩ := C3_strict_successor (remove_node c S) key hsort2 hrne2 hkne2
  have hsame : strictSucc (remove_node c S).sorted_keys (md5Int key) = some h1 := by
    rw [hrs]
    unfold strictSucc at hsucc ⊢
    cases hf : c.sorted_keys.find? (fun h => decide (md5Int key < h)) with
    | some a =>
      rw [hf] at hsucc
      have ha : a = h1 := by simpa [Option.orElse] using hsucc
      subst ha
      rw [find?_filter_found _ _ _ _ hf (by simpa using hnotin)]
      rfl
    | none =>
      rw [hf] at hsucc
      have hh : c.sorted_keys.head? = some h1 := by simpa [Option.orElse] using hsucc
      rw [find?_filter_none _ _ _ hf]
      obtain ⟨t1, hct⟩ : ∃ t1, c.sorted_keys = h1 :: t1 := by
        cases hl : c.sorted_keys with
        | nil =>
          rw [hl] at hh
          cases hh
        | cons a b =>
          rw [hl] at hh
          injection hh with hh
          exact ⟨b, by rw [hh]⟩
      rw [hct, List.filter_cons, if_pos (by simpa using hnotin)]
      rfl
  have h21 : h2 = h1 := by
    rw [hsame] at hsucc2
    injection hsucc2 with hs2
    exact hs2.symm
  rw [hmatch2, h21, hlk2]

/-- C8: adding an already-present shard and removing an absent shard are
no-ops; removing a present shard deletes exactly its virtual-node hash
entries from the ring dict and sorted hash list, leaving all other
entries intact; adding a fresh shard and then removing it restores the
original ring exactly; and every key that did not resolve to the removed
shard resolves to the same shard as before the removal. -/
theorem C8_add_remove_shard (c1 c2 c3 : ConsistentHash) (n1 n2 n3 key T : String)
    (h1mem : n1 ∈ c1.nodes)
    (h2abs : n2 ∉ c2.nodes)
    (hfresh2 : ∀ h ∈ vnodeHashes n2 c2.virtual_nodes,
      c2.ring.lookup h = none ∧ h ∉ c2.sorted_keys)
    (hhnd2 : (vnodeHashes n2 c2.virtual_nodes).Nodup)
    (hsort2 : c2.sorted_keys.Sorted (· ≤ ·))
    (hnd2 : c2.sorted_keys.Nodup)
    (hca2 : ∀ p ∈ c2.ring, p.1 ∈ c2.sorted_keys)
    (hcb2 : ∀ h ∈ c2.sorted_keys, (c2.ring.lookup h).isSome = true)
    (h3mem : n3 ∈ c3.nodes)
    (hsort3 : c3.sorted_keys.Sorted (· ≤ ·))
    (hnd3 : c3.sorted_keys.Nodup)
    (hca3 : ∀ p ∈ c3.ring, p.1 ∈ c3.sorted_keys)
    (hcb3 : ∀ h ∈ c3.sorted_keys, (c3.ring.lookup h).isSome = true)
    (hown3 : ∀ p ∈ c3.ring, (p.2 = n3 ↔ p.1 ∈ vnodeHashes n3 c3.virtual_nodes))
    (hres : get_node c3 key = Except.ok T) (hTS : T ≠ n3) :
    add_node c1 n1 = c1 ∧
    remove_node c2 n2 = c2 ∧
    ((remove_node c3 n3).ring =
        c3.ring.filter (fun p => decide (¬ p.1 ∈ vnodeHashes n3 c3.virtual_nodes)) ∧
      (remove_node c3 n3).sorted_keys =
        c3.sorted_keys.filter (fun h2 => decide (¬ h2 ∈ vnodeHashes n3 c3.virtual_nodes))) ∧
    remove_node (add_node c2 n2) n2 = c2 ∧
    get_node (remove_node c3 n3) key = Except.ok T := by
  have hcons2 : ∀ h2 : Nat, ((c2.ring.lookup h2).isSome = true) ↔ h2 ∈ c2.sorted_keys := by
    intro h2
    constructor
    · intro hsome
      cases hlk : c2.ring.lookup h2 with
      | none =>
        rw [hlk] at hsome
        cases hsome
      | some v => exact hca2 (h2, v) (lookup_mem hlk)
    · exact hcb2 h2
  have hcons3 : ∀ h2 : Nat, ((c3.ring.lookup h2).isSome = true) ↔ h2 ∈ c3.sorted_keys := by
    intro h2
    constructor
    · intro hsome
      cases hlk : c3.ring.lookup h2 with
      | none =>
        rw [hlk] at hsome
        cases hsome
      | some v => exact hca3 (h2, v) (lookup_mem hlk)
    · exact hcb3 h2
  refine ⟨?_, ?_, ?_, ?_, ?_⟩
  · unfold add_node
    rw [if_pos h1mem]
  · unfold remove_node
    rw [if_neg h2abs]
  · obtain ⟨_, hr, hsk, _⟩ := remove_node_filter c3 n3 h3mem hnd3 hcons3
    exact ⟨hr, hsk⟩
  · exact add_remove_roundtrip c2 n2 h2abs hfresh2 hhnd2 hsort2 hnd2 hcons2
  · exact remove_preserves_resolution c3 n3 key T h3mem hsort3 hnd3 hcons3 hown3 hres hTS

theorem C8_witness :
    remove_node (add_node (mkConsistentHash ["a"] 1) "b") "b" = mkConsistentHash ["a"] 1 ∧
    get_node (remove_node (mkConsistentHash ["a", "b"] 1) "b") "a" = Except.ok "a" := by
  have h := C8_add_remove_shard (mkConsistentHash ["a"] 1) (mkConsistentHash ["a"] 1)
    (mkConsistentHash ["a", "b"] 1) "a" "b" "b" "a" "a"
    (by decide) (by decide) (by decide) (by decide) (by decide) (by decide) (by decide)
    (by decide) (by decide) (by decide) (by decide) (by decide) (by decide) (by decide)
    (by decide) (by decide)
  exact ⟨h.2.2.2.1, h.2.2.2.2⟩
